import Mathlib

/-!
Verification development for the cfn-teleport template-migration tool.

The definitions below are a shallow embedding of the Rust sources:
  * `src/reference_updater.rs` — reference index builder (`find_all_references`,
    `collect_references`, `extract_sub_references`) and rewriter
    (`traverse_and_update`, `update_sub_value`, `update_dependson_value`).
  * `src/main.rs` — migration safety validator (`validate_move_references`),
    template diff/merge operators (`retain_resources`, `remove_resources`,
    `add_resources`, `set_default_deletion_policy`) and the pre-mutation
    control flow of `run`.

Representation choices:
  * JSON values (`serde_json::Value`) become the inductive `Value`; objects are
    association lists in insertion order (serde_json maps have unique keys, so
    only first-occurrence lookup semantics matter).
  * Rust strings become `List Char` so that the character-level scanning of
    `Fn::Sub` templates can be reasoned about directly.
  * Fallible operations (code paths that `unwrap` and can panic) return
    `Option`, with `none` modelling the panic.
  * `HashSet` accumulation becomes list accumulation plus `dedup`; all
    statements about sets are phrased via membership, which is order-blind.
-/

set_option maxHeartbeats 1000000

abbrev CStr := List Char

/-- Left brace character, written via its code point. -/
def lbC : Char := Char.ofNat 123

/-- Right brace character, written via its code point. -/
def rbC : Char := Char.ofNat 125

def dollarC : Char := '$'

def dotC : Char := '.'

/-- JSON-like value tree, mirroring `serde_json::Value`. -/
inductive Value where
  | null
  | boolv (b : Bool)
  | num (n : Int)
  | str (s : CStr)
  | arr (vs : List Value)
  | obj (fs : List (CStr × Value))

mutual
/-- Structural size of a value; used as fuel for the rewriter. -/
def vsize : Value → Nat
  | .obj m => fsize m + 1
  | .arr vs => lsize vs + 1
  | _ => 1
termination_by structural v => v

def lsize : List Value → Nat
  | [] => 0
  | v :: vs => vsize v + lsize vs
termination_by structural l => l

def fsize : List (CStr × Value) → Nat
  | [] => 0
  | kv :: rest => vsize kv.2 + fsize rest
termination_by structural l => l
end

/-- First-match lookup in an association list (the `Map::get` of serde_json;
keys are unique in maps produced by JSON parsing). -/
def lookupF {α : Type} : List (CStr × α) → CStr → Option α
  | [], _ => none
  | (k, v) :: rest, q => if k = q then some v else lookupF rest q

/-- Replace the value at an existing key in place, or append a new entry
(the `Map::insert` of serde_json, up to entry order). -/
def insertF {α : Type} : List (CStr × α) → CStr → α → List (CStr × α)
  | [], q, x => [(q, x)]
  | (k, v) :: rest, q, x => if k = q then (k, x) :: rest else (k, v) :: insertF rest q x

/-- Remove the entry at a key (the `Map::remove` of serde_json). -/
def eraseF {α : Type} : List (CStr × α) → CStr → List (CStr × α)
  | [], _ => []
  | (k, v) :: rest, q => if k = q then rest else (k, v) :: eraseF rest q

/-- Field access on a value that may not be an object (`Value::get`). -/
def lookupV (t : Value) (k : CStr) : Option Value :=
  match t with
  | .obj m => lookupF m k
  | _ => none

def keyRef : CStr := "Ref".data
def keyGA : CStr := "Fn::GetAtt".data
def keySub : CStr := "Fn::Sub".data
def keyDep : CStr := "DependsOn".data
def keyType : CStr := "Type".data
def keyResources : CStr := "Resources".data
def keyOutputs : CStr := "Outputs".data
def keyParameters : CStr := "Parameters".data
def keyDelPol : CStr := "DeletionPolicy".data
def keyDBCluster : CStr := "DBClusterIdentifier".data

/-- Reserved pseudo-parameter prefix (`is_pseudo_parameter`): names starting
with the fixed prefix are never real declarations. -/
def pseudoPre : CStr := "AWS::".data

def isPseudo (s : CStr) : Bool := pseudoPre.isPrefixOf s

-- ============================================================
-- Fn::Sub placeholder extraction (`extract_sub_references`)
-- ============================================================

/-- Skip characters up to and including the first closing brace
(the inner `while` loop of `extract_sub_references`). -/
def dropThroughRb : CStr → CStr
  | [] => []
  | c :: rest => if c = rbC then rest else dropThroughRb rest

/-- Character scanner of `extract_sub_references`, with explicit fuel (one
unit per consumed character; the wrapper supplies the string length, which
is always sufficient). On a placeholder opener the name is collected up to
the first dot or closing brace, the rest of the span is skipped, and the name
is recorded when non-empty and not a pseudo-parameter. -/
def extractGo : Nat → CStr → List CStr
  | 0, _ => []
  | _ + 1, [] => []
  | f + 1, c :: rest =>
    if c = dollarC then
      match rest with
      | [] => []
      | c2 :: rest2 =>
        if c2 = lbC then
          let n := rest2.takeWhile (fun ch => ¬ (ch = rbC ∨ ch = dotC))
          let rest3 := dropThroughRb (rest2.drop n.length)
          (if n ≠ [] ∧ ¬ isPseudo n then [n] else []) ++ extractGo f rest3
        else extractGo f (c2 :: rest2)
    else extractGo f rest

/-- Placeholder names referenced by a `Fn::Sub` template string. -/
def extractSubRefs (s : CStr) : List CStr := extractGo s.length s

-- ============================================================
-- Reference collection (`collect_references`)
-- ============================================================

/-- Names contributed by a `Ref` field (pseudo-parameters skipped). -/
def refNames (m : List (CStr × Value)) : List CStr :=
  match lookupF m keyRef with
  | some (.str s) => if isPseudo s then [] else [s]
  | _ => []

/-- Names contributed by an `Fn::GetAtt` field: array form takes the first
element when it is a string; dotted-string form takes the prefix before the
first dot. No pseudo-parameter filter is applied here (mirroring the code). -/
def gaNames (m : List (CStr × Value)) : List CStr :=
  match lookupF m keyGA with
  | some (.arr (v :: _)) =>
    match v with
    | .str s => [s]
    | _ => []
  | some (.str s) => [s.takeWhile (fun c => c ≠ dotC)]
  | _ => []

/-- Names contributed by an `Fn::Sub` field (string form, or first element of
the array form). -/
def subNames (m : List (CStr × Value)) : List CStr :=
  match lookupF m keySub with
  | some (.str s) => extractSubRefs s
  | some (.arr (v :: _)) =>
    match v with
    | .str s => extractSubRefs s
    | _ => []
  | _ => []

/-- Names contributed by a `DependsOn` field, collected only when the object
also has a `Type` field (i.e. is a resource definition). -/
def depNames (m : List (CStr × Value)) : List CStr :=
  if (lookupF m keyType).isSome then
    match lookupF m keyDep with
    | some (.str s) => [s]
    | some (.arr vs) =>
      vs.filterMap (fun v => match v with | .str s => some s | _ => none)
    | _ => []
  else []

mutual
/-- Recursive reference collection over a value (`collect_references`); the
four construct checks run on each object, then recursion visits every field
value and array element. List membership models `HashSet` membership. -/
def collectRefs : Value → List CStr
  | .obj m => refNames m ++ gaNames m ++ subNames m ++ depNames m ++ collectFields m
  | .arr vs => collectElems vs
  | _ => []
termination_by structural v => v

def collectElems : List Value → List CStr
  | [] => []
  | v :: vs => collectRefs v ++ collectElems vs
termination_by structural l => l

def collectFields : List (CStr × Value) → List CStr
  | [] => []
  | kv :: rest => collectRefs kv.2 ++ collectFields rest
termination_by structural l => l
end

-- ============================================================
-- Reference index (`find_all_references`)
-- ============================================================

/-- Per-resource part of the reference index: scan of the `Resources` object,
inserting an entry for each resource with a non-empty reference set. -/
def resIndex (res : List (CStr × Value)) : List (CStr × List CStr) :=
  res.foldl
    (fun acc kv =>
      let rs := (collectRefs kv.2).dedup
      if rs = [] then acc else insertF acc kv.1 rs)
    ([] : List (CStr × List CStr))

/-- Aggregated reference set of the outputs section. -/
def outIndex (outs : List (CStr × Value)) : List CStr :=
  (outs.flatMap (fun kv => collectRefs kv.2)).dedup

/-- Reference index of a template (`find_all_references`): per-resource
reference sets from the `Resources` section, plus one aggregated entry under
the `Outputs` key for the outputs section. Entries with empty reference sets
are not inserted. -/
def find_all_references (t : Value) : List (CStr × List CStr) :=
  let withRes :=
    match lookupV t keyResources with
    | some (.obj res) => resIndex res
    | _ => []
  match lookupV t keyOutputs with
  | some (.obj outs) =>
    let rs := outIndex outs
    if rs = [] then withRes else insertF withRes keyOutputs rs
  | _ => withRes

/-- Parameter names of a template (keys of the `Parameters` object). -/
def paramNames (t : Value) : List CStr :=
  match lookupV t keyParameters with
  | some (.obj ps) => ps.map Prod.fst
  | _ => []

-- ============================================================
-- Migration safety validator (`validate_move_references`)
-- ============================================================

/-- Structured form of one violation line in the error message built by
`validate_move_references`: each formatted line is determined by the kind of
check that fired and the pair of names involved. -/
inductive Viol where
  | outputs (r : CStr)
  | stayer (d r : CStr)
  | mover (d r : CStr)
deriving DecidableEq, Repr

/-- Identifiers being moved: the keys of the old-to-new identifier mapping. -/
def movingKeys (mapping : List (CStr × CStr)) : List CStr := mapping.map Prod.fst

/-- Violation lines accumulated by `validate_move_references`, in index
iteration order: the `Outputs` entry yields outputs-coupling violations, every
other entry is checked per referenced target with parameter targets skipped,
recording stayer-depends-on-mover and mover-depends-on-stayer violations. -/
def violationsOf (t : Value) (mapping : List (CStr × CStr)) : List Viol :=
  let moving := movingKeys mapping
  let params := paramNames t
  (find_all_references t).flatMap
    (fun dr =>
      if dr.1 = keyOutputs then
        dr.2.filterMap (fun r => if r ∈ moving then some (.outputs r) else none)
      else
        dr.2.flatMap (fun r =>
          if r ∈ params then []
          else
            (if dr.1 ∉ moving ∧ r ∈ moving then [Viol.stayer dr.1 r] else []) ++
            (if dr.1 ∈ moving ∧ r ∉ moving then [Viol.mover dr.1 r] else [])))

/-- Migration safety validator (`validate_move_references` in `main.rs`):
collects every violation and errs with the full list iff any exists. -/
def validate_move_references (t : Value) (mapping : List (CStr × CStr)) :
    Except (List Viol) Unit :=
  let errs := violationsOf t mapping
  if errs = [] then .ok () else .error errs

/-- Declarative reading of one violation, phrased over the reference index:
an outputs-coupling violation; a non-moving declarant referencing a moving
non-parameter target; or a moving declarant referencing a non-moving
non-parameter target. -/
def IsViolation (t : Value) (mapping : List (CStr × CStr)) : Viol → Prop :=
  fun v =>
    match v with
    | .outputs r =>
      ∃ rs, lookupF (find_all_references t) keyOutputs = some rs ∧ r ∈ rs ∧
        r ∈ movingKeys mapping
    | .stayer d r =>
      ∃ rs, lookupF (find_all_references t) d = some rs ∧ d ≠ keyOutputs ∧ r ∈ rs ∧
        r ∉ paramNames t ∧ d ∉ movingKeys mapping ∧ r ∈ movingKeys mapping
    | .mover d r =>
      ∃ rs, lookupF (find_all_references t) d = some rs ∧ d ≠ keyOutputs ∧ r ∈ rs ∧
        r ∉ paramNames t ∧ d ∈ movingKeys mapping ∧ r ∉ movingKeys mapping

-- ============================================================
-- Reference rewriter (`traverse_and_update`, `update_sub_value`,
-- `update_dependson_value`)
-- ============================================================

/-- Pattern for a plain placeholder occurrence of an identifier. -/
def patB (x : CStr) : CStr := dollarC :: lbC :: (x ++ [rbC])

/-- Pattern for an attribute placeholder occurrence of an identifier. -/
def patD (x : CStr) : CStr := dollarC :: lbC :: (x ++ [dotC])

/-- Left-to-right non-overlapping textual replacement (`str::replace`), with
fuel (one unit per consumed character; the wrapper supplies the length). -/
def replGo (pat rep : CStr) : Nat → CStr → CStr
  | 0, s => s
  | _ + 1, [] => []
  | f + 1, c :: rest =>
    if pat ≠ [] ∧ pat.isPrefixOf (c :: rest) then
      rep ++ replGo pat rep f ((c :: rest).drop pat.length)
    else c :: replGo pat rep f rest

def replaceAll (s pat rep : CStr) : CStr := replGo pat rep s.length s

/-- String-form `Fn::Sub` rewriting: replace plain placeholders of the old
identifier, then attribute placeholders. -/
def subRepl (s old new : CStr) : CStr :=
  replaceAll (replaceAll s (patB old) (patB new)) (patD old) (patD new)

/-- Rewriting of a `DependsOn` value (`update_dependson_value`): matching
strings are replaced, in string form or element-wise in array form. -/
def depUpd (x : Value) (old new : CStr) : Value :=
  match x with
  | .str s => if s = old then .str new else .str s
  | .arr vs =>
    .arr (vs.map (fun v => match v with
      | .str s => if s = old then Value.str new else Value.str s
      | _ => v))
  | _ => x

/-- Does the object's `Ref` field match the old identifier (and not a
pseudo-parameter)? First branch of `traverse_and_update`. -/
def refMatchB (m : List (CStr × Value)) (old : CStr) : Bool :=
  match lookupF m keyRef with
  | some (.str s) => decide (s = old) && !(isPseudo s)
  | _ => false

/-- If the object's `Fn::GetAtt` field is a non-empty array whose first
element is the string `old`, return the remaining elements. Second branch of
`traverse_and_update`. -/
def gaTail (m : List (CStr × Value)) (old : CStr) : Option (List Value) :=
  match lookupF m keyGA with
  | some (.arr (v :: vs)) =>
    match v with
    | .str s => if s = old then some vs else none
    | _ => none
  | _ => none

mutual
/-- Fueled embedding of `traverse_and_update`: on an object, a matching `Ref`
or `Fn::GetAtt` is replaced and the object returned immediately; otherwise the
`Fn::Sub` and `DependsOn` values are updated in place and every field value of
the updated object is traversed recursively. Fuel only bounds the recursion
re-entering values already updated by `subF`; every lemma below assumes fuel
at least `vsize`, which always suffices. -/
def travF : Nat → Value → CStr → CStr → Value
  | 0, v, _, _ => v
  | f + 1, v, old, new =>
    match v with
    | .obj m =>
      if refMatchB m old then .obj (insertF m keyRef (.str new))
      else
        match gaTail m old with
        | some vs => .obj (insertF m keyGA (.arr (.str new :: vs)))
        | none =>
          let m1 := match lookupF m keySub with
            | some x => insertF m keySub (subF f x old new)
            | none => m
          let m2 := match lookupF m1 keyDep with
            | some x => insertF m1 keyDep (depUpd x old new)
            | none => m1
          .obj (m2.map (fun kv => (kv.1, travF f kv.2 old new)))
    | .arr vs => .arr (vs.map (fun x => travF f x old new))
    | _ => v

/-- Fueled embedding of `update_sub_value`: string form rewrites the template
string; array form rewrites the first element when it is a string, then in the
local variable map renames a key equal to `old` (traversing its value) and
traverses every map value. -/
def subF : Nat → Value → CStr → CStr → Value
  | 0, x, _, _ => x
  | f + 1, x, old, new =>
    match x with
    | .str s => .str (subRepl s old new)
    | .arr (v0 :: rest) =>
      let v0' := match v0 with
        | .str s => Value.str (subRepl s old new)
        | _ => v0
      let rest' := match rest with
        | [] => ([] : List Value)
        | v1 :: tail =>
          (match v1 with
           | .obj mp =>
             let mp1 := match lookupF mp old with
               | some w => insertF (eraseF mp old) new (travF f w old new)
               | none => mp
             Value.obj (mp1.map (fun kv => (kv.1, travF f kv.2 old new)))
           | _ => v1) :: tail
      .arr (v0' :: rest')
    | _ => x
end

/-- Update step for the `Fn::Sub` value of an object (first half of the
`let m1` in `travF`). -/
def subStep (f : Nat) (m : List (CStr × Value)) (old new : CStr) :
    List (CStr × Value) :=
  match lookupF m keySub with
  | some x => insertF m keySub (subF f x old new)
  | none => m

/-- Update step for the `DependsOn` value of an object (the `let m2` in
`travF`; performed whenever the key is present, with no `Type` check). -/
def depStep (m : List (CStr × Value)) (old new : CStr) : List (CStr × Value) :=
  match lookupF m keyDep with
  | some x => insertF m keyDep (depUpd x old new)
  | none => m

/-- Rewriter entry point for one identifier pair, with sufficient fuel. -/
def traverse_and_update (v : Value) (old new : CStr) : Value :=
  travF (vsize v) v old new

/-- Rewriter entry point (`update_template_references`): apply the mapping one
pair at a time, in mapping order. -/
def update_template_references (t : Value) (mapping : List (CStr × CStr)) : Value :=
  mapping.foldl (fun acc p => traverse_and_update acc p.1 p.2) t

-- ============================================================
-- Template diff/merge operators (`retain_resources`, `remove_resources`,
-- `add_resources`, `set_default_deletion_policy`)
-- ============================================================

def clusterType : CStr := "AWS::RDS::DBCluster".data
def instanceType : CStr := "AWS::RDS::DBInstance".data
def polRetain : CStr := "Retain".data
def polSnapshot : CStr := "Snapshot".data
def polDelete : CStr := "Delete".data

/-- Result of `template["Resources"].as_object_mut().unwrap()`: the template
must be an object whose `Resources` key holds an object, otherwise the code
panics (`none`). Returns the template fields together with the resource
fields. -/
def resourcesObj (t : Value) : Option (List (CStr × Value) × List (CStr × Value)) :=
  match t with
  | .obj m =>
    match lookupF m keyResources with
    | some (.obj res) => some (m, res)
    | _ => none
  | _ => none

/-- Mutable index-assignment `v[k] = x` of serde_json: works on objects,
turns null into a fresh object, and panics (`none`) on anything else. -/
def setFieldIdx (v : Value) (k : CStr) (x : Value) : Option Value :=
  match v with
  | .obj ro => some (.obj (insertF ro k x))
  | .null => some (.obj [(k, x)])
  | _ => none

/-- Type-specific default retention policy (`set_default_deletion_policy`
inner match): requires the `Type` field to be a string (the code unwraps it;
`none` models the panic). A relational cluster gets Snapshot; a relational
instance gets Delete when it carries a parent-cluster field, else Snapshot;
anything else gets Delete. -/
def defaultPolicyFor (ro : List (CStr × Value)) : Option CStr :=
  match lookupF ro keyType with
  | some (.str ty) =>
    some (if ty = clusterType then polSnapshot
          else if ty = instanceType then
            (if (lookupF ro keyDBCluster).isSome then polDelete else polSnapshot)
          else polDelete)
  | _ => none

/-- One step of `set_default_deletion_policy` for a single id: ids absent from
the resources map are skipped, non-object resources are skipped, resources
with an explicit policy are left untouched, and otherwise the type-specific
default is inserted. -/
def applyDefaultPolicy (res : List (CStr × Value)) (id : CStr) :
    Option (List (CStr × Value)) :=
  match lookupF res id with
  | none => some res
  | some r =>
    match r with
    | .obj ro =>
      if (lookupF ro keyDelPol).isSome then some res
      else
        match defaultPolicyFor ro with
        | none => none
        | some p => some (insertF res id (.obj (insertF ro keyDelPol (.str p))))
    | _ => some res

/-- Embedding of `set_default_deletion_policy`: unconditionally unwraps the
`Resources` object (`none` models the panic) and then processes the listed
ids in order. -/
def set_default_deletion_policy (t : Value) (ids : List CStr) : Option Value :=
  match resourcesObj t with
  | some (m, res) =>
    (ids.foldlM applyDefaultPolicy res).map
      (fun res' => Value.obj (insertF m keyResources (.obj res')))
  | none => none

/-- One step of `retain_resources` for a single id: a present resource gets
its retention-policy field assigned by index assignment (which can itself
panic on non-object resources). -/
def retainOne (res : List (CStr × Value)) (id : CStr) :
    Option (List (CStr × Value)) :=
  match lookupF res id with
  | none => some res
  | some r => (setFieldIdx r keyDelPol (.str polRetain)).map (fun r' => insertF res id r')

/-- Embedding of `retain_resources`: unconditionally unwraps the `Resources`
object (`none` models the panic), then assigns `Retain` to every listed
resource that is present. -/
def retain_resources (t : Value) (ids : List CStr) : Option Value :=
  match resourcesObj t with
  | some (m, res) =>
    (ids.foldlM retainOne res).map
      (fun res' => Value.obj (insertF m keyResources (.obj res')))
  | none => none

/-- Embedding of `remove_resources`: unconditionally unwraps the `Resources`
object (`none` models the panic), then deletes every listed declaration. -/
def remove_resources (t : Value) (ids : List CStr) : Option Value :=
  match resourcesObj t with
  | some (m, res) =>
    some (Value.obj (insertF m keyResources (.obj (ids.foldl eraseF res))))
  | none => none

/-- Embedding of `add_resources`: unconditionally unwraps both the target and
the source `Resources` objects (`none` models the panic); clones each mapped
source declaration into the target under its new id, then returns the pair
(target with defaulted retention policies, plain merged target). -/
def add_resources (target source : Value) (mapping : List (CStr × CStr)) :
    Option (Value × Value) :=
  match resourcesObj target with
  | some (tm, tres) =>
    match resourcesObj source with
    | some (_, sres) =>
      let tres' := mapping.foldl
        (fun acc p =>
          match lookupF sres p.1 with
          | some r => insertF acc p.2 r
          | none => acc) tres
      let target' := Value.obj (insertF tm keyResources (.obj tres'))
      (set_default_deletion_policy target' (mapping.map Prod.snd)).map
        (fun twd => (twd, target'))
    | none => none
  | none => none

-- ============================================================
-- Pre-mutation control flow of `run` (main.rs)
-- ============================================================

/-- Inputs of one `run` invocation that are relevant to the validation phase:
stack names, the `--mode import` flag, the source template, the selected
resources as (logical id, resource type) pairs, and the identifier mapping. -/
structure RunInput where
  sourceStack : CStr
  targetStack : CStr
  importMode : Bool
  template : Value
  selected : List (CStr × CStr)
  mapping : List (CStr × CStr)

/-- Fatal errors produced by the validation phase of `run`, all of which are
returned strictly before any mutating CloudFormation call is issued. -/
inductive RunErr where
  | noRename
  | notRenamed (ids : List CStr)
  | collisions (cs : List (CStr × CStr))
  | validation (es : List Viol)
  | paramBlock (bs : List (CStr × CStr × List CStr))
deriving DecidableEq, Repr

/-- Outcome of a successful validation phase: the mutating call sequence that
`run` proceeds to issue (same-stack refactor; cross-stack refactor; or the
legacy remove-then-import sequence). -/
inductive RunPlan where
  | sameStackRefactor
  | crossStackRefactor
  | legacyImport
deriving DecidableEq, Repr

/-- Logical ids present in a template's `Resources` object (used by the
same-stack collision check; absent or non-object sections yield the empty
set, mirroring the code). -/
def existingResourceIds (t : Value) : List CStr :=
  match lookupV t keyResources with
  | some (.obj res) => res.map Prod.fst
  | _ => []

/-- Parameters a resource depends on: its referenced set intersected with the
source template's parameter names (the import-mode precondition computed at
`main.rs` lines 611-652). -/
def paramDependsOf (t : Value) (id : CStr) : List CStr :=
  ((lookupF (find_all_references t) id).getD []).filter
    (fun r => decide (r ∈ paramNames t))

/-- Resources blocked by the import-mode parameter precondition: every mapping
key that is among the selected resources and depends on at least one source
parameter, together with its resource type and the parameters involved. -/
def blockedParams (inp : RunInput) : List (CStr × CStr × List CStr) :=
  inp.mapping.filterMap (fun p =>
    match lookupF inp.selected p.1 with
    | none => none
    | some ty =>
      let ds := paramDependsOf inp.template p.1
      if ds = [] then none else some (p.1, ty, ds))

/-- Validation phase of `run`, mirroring the source order: for a same-stack
operation, the rename checks (at least one rename, no unrenamed pairs, no
name collisions) and then the same-stack refactor path with no reference
validation; for a cross-stack move, `validate_move_references` first, then
mode dispatch, with the import-mode parameter precondition checked before the
legacy sequence. Returning a `RunPlan` models passing every check and
proceeding to the mode's mutating calls; every `RunErr` is produced before
any mutating call. -/
def runPreflight (inp : RunInput) : Except RunErr RunPlan :=
  if inp.sourceStack = inp.targetStack then
    if ¬ inp.mapping.any (fun p => decide (p.1 ≠ p.2)) then .error .noRename
    else
      let dups := (inp.mapping.filter (fun p => decide (p.1 = p.2))).map Prod.fst
      if dups ≠ [] then .error (.notRenamed dups)
      else
        let existing := existingResourceIds inp.template
        let cols := inp.mapping.filter
          (fun p => decide (p.2 ∈ existing) && decide (p.1 ≠ p.2))
        if cols ≠ [] then .error (.collisions cols)
        else .ok .sameStackRefactor
  else
    match validate_move_references inp.template inp.mapping with
    | .error es => .error (.validation es)
    | .ok _ =>
      if ¬ inp.importMode then .ok .crossStackRefactor
      else
        let bs := blockedParams inp
        if bs ≠ [] then .error (.paramBlock bs) else .ok .legacyImport

-- ============================================================
-- Association-list lemmas
-- ============================================================

theorem lookupF_insertF_self {α : Type} (l : List (CStr × α)) (k : CStr) (x : α) :
    lookupF (insertF l k x) k = some x := by
  induction l with
  | nil => simp [insertF, lookupF]
  | cons kv rest ih =>
    by_cases h : kv.1 = k
    · simp [insertF, lookupF, h]
    · simp only [insertF, lookupF]
      rw [if_neg h, lookupF, if_neg h]
      exact ih

theorem lookupF_insertF_ne {α : Type} (l : List (CStr × α)) (k q : CStr) (x : α)
    (h : q ≠ k) : lookupF (insertF l k x) q = lookupF l q := by
  induction l with
  | nil =>
    simp only [insertF, lookupF]
    rw [if_neg (fun hh => h hh.symm)]
  | cons kv rest ih =>
    by_cases hk : kv.1 = k
    · simp only [insertF]
      rw [if_pos hk, lookupF, lookupF]
      have hne : ¬ kv.1 = q := fun hh => h (hh.symm.trans hk)
      rw [if_neg hne, if_neg hne]
    · simp only [insertF]
      rw [if_neg hk, lookupF, lookupF]
      by_cases hq : kv.1 = q
      · rw [if_pos hq, if_pos hq]
      · rw [if_neg hq, if_neg hq]
        exact ih

theorem lookupF_map_value {α β : Type} (l : List (CStr × α)) (f : α → β) (q : CStr) :
    lookupF (l.map (fun kv => (kv.1, f kv.2))) q = (lookupF l q).map f := by
  induction l with
  | nil => simp [lookupF]
  | cons kv rest ih =>
    by_cases h : kv.1 = q
    · simp [lookupF, h]
    · simp only [List.map_cons, lookupF]
      rw [if_neg h, if_neg h]
      exact ih

theorem lookupF_eraseF_ne {α : Type} (l : List (CStr × α)) (k q : CStr) (h : q ≠ k) :
    lookupF (eraseF l k) q = lookupF l q := by
  induction l with
  | nil => simp [eraseF]
  | cons kv rest ih =>
    by_cases hk : kv.1 = k
    · simp only [eraseF]
      rw [if_pos hk, lookupF]
      have hne : ¬ kv.1 = q := fun hh => h (hh.symm.trans hk)
      rw [if_neg hne]
    · simp only [eraseF]
      rw [if_neg hk, lookupF, lookupF]
      by_cases hq : kv.1 = q
      · rw [if_pos hq, if_pos hq]
      · rw [if_neg hq, if_neg hq]
        exact ih

theorem lookupF_eq_none_iff {α : Type} (l : List (CStr × α)) (k : CStr) :
    lookupF l k = none ↔ k ∉ l.map Prod.fst := by
  induction l with
  | nil =>
    constructor
    · intro _
      exact List.not_mem_nil _
    · intro _
      rfl
  | cons kv rest ih =>
    obtain ⟨k₀, v₀⟩ := kv
    by_cases h : k₀ = k
    · subst h
      constructor
      · intro hh
        rw [lookupF, if_pos rfl] at hh
        exact Option.noConfusion hh
      · intro hh
        exact absurd (List.mem_cons_self _ _) hh
    · rw [lookupF, if_neg h, ih]
      constructor
      · intro hn hm
        rcases List.mem_cons.mp hm with he | hm'
        · exact h he.symm
        · exact hn hm'
      · intro hn hm
        exact hn (List.mem_cons_of_mem _ hm)

theorem keys_insertF {α : Type} (l : List (CStr × α)) (k : CStr) (x : α) :
    (insertF l k x).map Prod.fst =
      if k ∈ l.map Prod.fst then l.map Prod.fst else l.map Prod.fst ++ [k] := by
  induction l with
  | nil =>
    rw [List.map_nil, if_neg (List.not_mem_nil _)]
    rfl
  | cons kv rest ih =>
    obtain ⟨k₀, v₀⟩ := kv
    by_cases h : k₀ = k
    · subst h
      have hl : insertF ((k₀, v₀) :: rest) k₀ x = (k₀, x) :: rest := by
        simp only [insertF]
        rw [if_pos trivial]
      rw [hl, List.map_cons, List.map_cons, if_pos (List.mem_cons_self _ _)]
    · have hl : insertF ((k₀, v₀) :: rest) k x = (k₀, v₀) :: insertF rest k x := by
        simp only [insertF]
        rw [if_neg h]
      rw [hl, List.map_cons, List.map_cons, ih]
      by_cases hm : k ∈ rest.map Prod.fst
      · rw [if_pos hm, if_pos (List.mem_cons_of_mem _ hm)]
      · rw [if_neg hm, if_neg ?hnm]
        · rfl
        case hnm =>
          intro hc
          rcases List.mem_cons.mp hc with he | hm'
          · exact h he.symm
          · exact hm hm'

theorem nodup_keys_insertF {α : Type} (l : List (CStr × α)) (k : CStr) (x : α)
    (h : (l.map Prod.fst).Nodup) : ((insertF l k x).map Prod.fst).Nodup := by
  rw [keys_insertF]
  by_cases hm : k ∈ l.map Prod.fst
  · rw [if_pos hm]
    exact h
  · rw [if_neg hm]
    refine List.nodup_append.mpr ⟨h, List.nodup_singleton _, fun a ha hb => ?_⟩
    rw [List.mem_singleton] at hb
    exact hm (hb ▸ ha)

theorem mem_iff_lookupF {α : Type} (l : List (CStr × α))
    (h : (l.map Prod.fst).Nodup) (k : CStr) (v : α) :
    (k, v) ∈ l ↔ lookupF l k = some v := by
  induction l with
  | nil =>
    exact iff_of_false (List.not_mem_nil _) (fun hh => Option.noConfusion hh)
  | cons kv rest ih =>
    rw [List.map_cons, List.nodup_cons] at h
    obtain ⟨hknotin, hnd⟩ := h
    obtain ⟨k₀, v₀⟩ := kv
    by_cases hk : k₀ = k
    · subst hk
      have hl : lookupF ((k₀, v₀) :: rest) k₀ = some v₀ := by
        rw [lookupF, if_pos rfl]
      rw [hl]
      constructor
      · intro hm
        rcases List.mem_cons.mp hm with he | hm'
        · injection he with h1 h2
          rw [h2]
        · exact absurd (List.mem_map_of_mem Prod.fst hm') hknotin
      · intro he
        injection he with h2
        rw [← h2]
        exact List.mem_cons_self _ _
    · have hl : lookupF ((k₀, v₀) :: rest) k = lookupF rest k := by
        rw [lookupF, if_neg hk]
      rw [hl, ← ih hnd]
      constructor
      · intro hm
        rcases List.mem_cons.mp hm with he | hm'
        · injection he with h1 h2
          exact absurd h1.symm hk
        · exact hm'
      · intro hm
        exact List.mem_cons_of_mem _ hm

theorem resIndex_keys_nodup_aux (res : List (CStr × Value))
    (acc : List (CStr × List CStr)) (hacc : (acc.map Prod.fst).Nodup) :
    ((res.foldl
      (fun acc kv =>
        let rs := (collectRefs kv.2).dedup
        if rs = [] then acc else insertF acc kv.1 rs) acc).map Prod.fst).Nodup := by
  induction res generalizing acc with
  | nil => exact hacc
  | cons kv rest ih =>
    simp only [List.foldl_cons]
    apply ih
    by_cases hrs : (collectRefs kv.2).dedup = []
    · simp only [hrs, ite_true]; exact hacc
    · simp only [hrs, ite_false]
      exact nodup_keys_insertF acc kv.1 _ hacc

theorem resIndex_keys_nodup (res : List (CStr × Value)) :
    ((resIndex res).map Prod.fst).Nodup :=
  resIndex_keys_nodup_aux res [] (by simp)

theorem index_keys_nodup (t : Value) :
    ((find_all_references t).map Prod.fst).Nodup := by
  unfold find_all_references
  cases ho : lookupV t keyOutputs with
  | none =>
    cases hr : lookupV t keyResources with
    | none => simp
    | some v =>
      cases v <;> simp [resIndex_keys_nodup]
  | some o =>
    cases o <;>
      (try (cases hr : lookupV t keyResources with
        | none => simp
        | some v => cases v <;> simp [resIndex_keys_nodup]))
    case obj outs =>
      by_cases hrs : outIndex outs = []
      · simp only [hrs, ite_true]
        cases hr : lookupV t keyResources with
        | none => simp
        | some v => cases v <;> simp [resIndex_keys_nodup]
      · simp only [hrs, ite_false]
        cases hr : lookupV t keyResources with
        | none => exact nodup_keys_insertF [] keyOutputs _ (by simp)
        | some v =>
          cases v <;>
            first
            | exact nodup_keys_insertF [] keyOutputs _ (by simp)
            | exact nodup_keys_insertF _ keyOutputs _ (resIndex_keys_nodup _)

theorem mem_index_iff_lookup (t : Value) (d : CStr) (rs : List CStr) :
    (d, rs) ∈ find_all_references t ↔ lookupF (find_all_references t) d = some rs :=
  mem_iff_lookupF _ (index_keys_nodup t) d rs

-- ============================================================
-- Claim C1: the validator errs iff a violation exists and reports all
-- ============================================================

theorem mem_violEntry (moving params : List CStr) (d : CStr) (rs : List CStr) (v : Viol) :
    (v ∈ if d = keyOutputs
      then rs.filterMap (fun r => if r ∈ moving then some (.outputs r) else none)
      else rs.flatMap (fun r =>
        if r ∈ params then []
        else
          (if d ∉ moving ∧ r ∈ moving then [Viol.stayer d r] else []) ++
          (if d ∈ moving ∧ r ∉ moving then [Viol.mover d r] else []))) ↔
    ((d = keyOutputs ∧ ∃ r ∈ rs, r ∈ moving ∧ v = .outputs r) ∨
     (d ≠ keyOutputs ∧ ∃ r ∈ rs, r ∉ params ∧
       ((d ∉ moving ∧ r ∈ moving ∧ v = .stayer d r) ∨
        (d ∈ moving ∧ r ∉ moving ∧ v = .mover d r)))) := by
  by_cases hout : d = keyOutputs
  · rw [if_pos hout]
    simp only [hout, List.mem_filterMap, Option.ite_none_right_eq_some,
      Option.some.injEq, ne_eq, not_true_eq_false, false_and, or_false, true_and]
    constructor
    · rintro ⟨r, hr, hm, he⟩
      exact ⟨r, hr, hm, he.symm⟩
    · rintro ⟨r, hr, hm, he⟩
      exact ⟨r, hr, hm, he.symm⟩
  · rw [if_neg hout]
    simp only [hout, List.mem_flatMap, List.mem_ite_nil_left, List.mem_append,
      List.mem_ite_nil_right, List.mem_singleton, ne_eq, not_false_eq_true,
      true_and, false_and, false_or]
    constructor
    · rintro ⟨r, hr, hp, (⟨⟨h1, h2⟩, he⟩ | ⟨⟨h1, h2⟩, he⟩)⟩
      · exact ⟨r, hr, hp, Or.inl ⟨h1, h2, he⟩⟩
      · exact ⟨r, hr, hp, Or.inr ⟨h1, h2, he⟩⟩
    · rintro ⟨r, hr, hp, (⟨h1, h2, he⟩ | ⟨h1, h2, he⟩)⟩
      · exact ⟨r, hr, hp, Or.inl ⟨⟨h1, h2⟩, he⟩⟩
      · exact ⟨r, hr, hp, Or.inr ⟨⟨h1, h2⟩, he⟩⟩

theorem mem_violationsOf (t : Value) (mapping : List (CStr × CStr)) (v : Viol) :
    v ∈ violationsOf t mapping ↔ IsViolation t mapping v := by
  unfold violationsOf
  rw [List.mem_flatMap]
  constructor
  · rintro ⟨⟨d, rs⟩, hdr, hv⟩
    have hlk : lookupF (find_all_references t) d = some rs :=
      (mem_index_iff_lookup t d rs).mp hdr
    have hv' := (mem_violEntry (movingKeys mapping) (paramNames t) d rs v).mp hv
    rcases hv' with ⟨hd, r, hr, hm, hveq⟩ | ⟨hd, r, hr, hp, hcase⟩
    · subst hveq
      exact ⟨rs, hd ▸ hlk, hr, hm⟩
    · rcases hcase with ⟨h1, h2, hveq⟩ | ⟨h1, h2, hveq⟩ <;> subst hveq
      · exact ⟨rs, hlk, hd, hr, hp, h1, h2⟩
      · exact ⟨rs, hlk, hd, hr, hp, h1, h2⟩
  · intro hv
    match v with
    | .outputs r =>
      obtain ⟨rs, hlk, hr, hm⟩ := hv
      refine ⟨(keyOutputs, rs), (mem_index_iff_lookup t _ _).mpr hlk, ?_⟩
      exact (mem_violEntry (movingKeys mapping) (paramNames t) keyOutputs rs _).mpr
        (Or.inl ⟨rfl, r, hr, hm, rfl⟩)
    | .stayer d r =>
      obtain ⟨rs, hlk, hd, hr, hp, h1, h2⟩ := hv
      refine ⟨(d, rs), (mem_index_iff_lookup t _ _).mpr hlk, ?_⟩
      exact (mem_violEntry (movingKeys mapping) (paramNames t) d rs _).mpr
        (Or.inr ⟨hd, r, hr, hp, Or.inl ⟨h1, h2, rfl⟩⟩)
    | .mover d r =>
      obtain ⟨rs, hlk, hd, hr, hp, h1, h2⟩ := hv
      refine ⟨(d, rs), (mem_index_iff_lookup t _ _).mpr hlk, ?_⟩
      exact (mem_violEntry (movingKeys mapping) (paramNames t) d rs _).mpr
        (Or.inr ⟨hd, r, hr, hp, Or.inr ⟨h1, h2, rfl⟩⟩)

theorem validate_ok_iff (t : Value) (mapping : List (CStr × CStr)) :
    validate_move_references t mapping = Except.ok () ↔
      ∀ v, ¬ IsViolation t mapping v := by
  unfold validate_move_references
  by_cases he : violationsOf t mapping = []
  · rw [if_pos he]
    constructor
    · intro _ v hv
      have := (mem_violationsOf t mapping v).mpr hv
      rw [he] at this
      exact List.not_mem_nil _ this
    · intro _
      rfl
  · rw [if_neg he]
    constructor
    · intro hh
      exact Except.noConfusion hh
    · intro hall
      exfalso
      obtain ⟨v, hv⟩ := List.exists_mem_of_ne_nil _ he
      exact hall v ((mem_violationsOf t mapping v).mp hv)

theorem validate_error_mem (t : Value) (mapping : List (CStr × CStr))
    (es : List Viol) (he : validate_move_references t mapping = Except.error es) :
    ∀ v, (v ∈ es ↔ IsViolation t mapping v) := by
  unfold validate_move_references at he
  by_cases hz : violationsOf t mapping = []
  · rw [if_pos hz] at he
    exact Except.noConfusion he
  · rw [if_neg hz] at he
    injection he with he
    intro v
    rw [← he]
    exact mem_violationsOf t mapping v

/-- Example template of the spec: a storage bucket plus a queue whose
properties reference the bucket. -/
def exBQ : Value :=
  Value.obj [(keyResources, Value.obj
    [("Bucket".data, Value.obj [(keyType, Value.str "AWS::S3::Bucket".data)]),
     ("Queue".data, Value.obj
       [(keyType, Value.str "AWS::SQS::Queue".data),
        ("Properties".data, Value.obj
          [("Target".data, Value.obj [(keyRef, Value.str "Bucket".data)])])])])]

/-- Claim C1 (corrected): for a non-empty mapping, `validate_move_references`
errs iff a violation exists, and the error records exactly the violations —
where, unlike the claim's wording, the parameter-name exclusion applies to
BOTH resource-to-resource checks (a non-moving declarant referencing a moving
target that is named in `Parameters` is not a violation, because the code
skips parameter-named targets before either check). The last two conjuncts
settle the spec's concrete example: moving the queue alone fails naming both
the queue and the bucket; moving both together succeeds. -/
theorem validate_move_references_iff_violations
    (t : Value) (mapping : List (CStr × CStr)) (_hne : mapping ≠ []) :
    ((validate_move_references t mapping = Except.ok ()) ↔
      ∀ v, ¬ IsViolation t mapping v) ∧
    (∀ es, validate_move_references t mapping = Except.error es →
      ∀ v, (v ∈ es ↔ IsViolation t mapping v)) ∧
    validate_move_references exBQ [("Queue".data, "Queue".data)]
      = Except.error [Viol.mover "Queue".data "Bucket".data] ∧
    validate_move_references exBQ
      [("Queue".data, "Queue".data), ("Bucket".data, "Bucket".data)]
      = Except.ok () :=
  ⟨validate_ok_iff t mapping, validate_error_mem t mapping, rfl, rfl⟩

/-- Witness for C1 at a concrete non-empty mapping. -/
theorem validate_move_references_iff_violations_witness :
    ([("Q".data, "Q".data)] ≠ ([] : List (CStr × CStr))) ∧
    ((validate_move_references (Value.obj []) [("Q".data, "Q".data)] = Except.ok ()) ↔
      ∀ v, ¬ IsViolation (Value.obj []) [("Q".data, "Q".data)] v) :=
  ⟨by decide,
   (validate_move_references_iff_violations (Value.obj []) [("Q".data, "Q".data)]
     (by decide)).1⟩

/-- Template for the counterexample to C1 as stated: a name that is both a
parameter and a resource, referenced by a staying resource. -/
def exParam : Value :=
  Value.obj
    [(keyParameters, Value.obj [("Par".data, Value.obj [])]),
     (keyResources, Value.obj
       [("Par".data, Value.obj [(keyType, Value.str "T".data)]),
        ("Stay".data, Value.obj
          [(keyType, Value.str "T".data),
           ("Properties".data, Value.obj
             [("X".data, Value.obj [(keyRef, Value.str "Par".data)])])])])]

/-- Counterexample to C1 as stated: the non-moving declarant `Stay`
references the moving target `Par` (a violation in the claim's sense, which
does not except parameter-named targets in this branch), yet the validator
succeeds, because the code skips any reference target named in `Parameters`
before both checks. -/
theorem validate_param_target_skipped_cex :
    validate_move_references exParam [("Par".data, "Par2".data)] = Except.ok () ∧
    lookupF (find_all_references exParam) "Stay".data = some ["Par".data] ∧
    "Par".data ∈ movingKeys [("Par".data, "Par2".data)] ∧
    "Stay".data ∉ movingKeys [("Par".data, "Par2".data)] ∧
    "Par".data ∈ paramNames exParam :=
  ⟨rfl, by decide, by decide, by decide, by decide⟩

-- ============================================================
-- Claim C2: outputs-coupling and the run's modes
-- ============================================================

/-- Claim C2 (corrected): in the two cross-scope modes (refactor and import),
a move set containing a resource referenced from the outputs section makes
the run fail during validation — strictly before any mutating call, since in
`runPreflight` every error precedes the returned plan — with an
outputs-coupling violation among the reported violations. (In same-scope
rename mode the validator is not invoked at all; see the counterexample.) -/
theorem cross_scope_outputs_coupling_blocks_run
    (inp : RunInput) (r : CStr) (rs : List CStr)
    (hcross : inp.sourceStack ≠ inp.targetStack)
    (hlk : lookupF (find_all_references inp.template) keyOutputs = some rs)
    (hr : r ∈ rs) (hm : r ∈ movingKeys inp.mapping) :
    ∃ es, runPreflight inp = Except.error (RunErr.validation es) ∧
      Viol.outputs r ∈ es := by
  have hviol : IsViolation inp.template inp.mapping (Viol.outputs r) := ⟨rs, hlk, hr, hm⟩
  cases hval : validate_move_references inp.template inp.mapping with
  | ok u =>
    cases u
    exact absurd hviol ((validate_ok_iff _ _).mp hval _)
  | error es =>
    refine ⟨es, ?_, (validate_error_mem _ _ es hval _).mpr hviol⟩
    unfold runPreflight
    rw [if_neg hcross, hval]

/-- Template with one resource and an output referencing it. -/
def exOut : Value :=
  Value.obj
    [(keyResources, Value.obj
       [("A".data, Value.obj [(keyType, Value.str "T".data)])]),
     (keyOutputs, Value.obj
       [("O".data, Value.obj
          [("Value".data, Value.obj [(keyRef, Value.str "A".data)])])])]

/-- Witness for C2 at a concrete cross-stack input. -/
theorem cross_scope_outputs_coupling_blocks_run_witness :
    ∃ es, runPreflight
      { sourceStack := "s".data, targetStack := "t".data, importMode := false,
        template := exOut, selected := [("A".data, "T".data)],
        mapping := [("A".data, "A".data)] }
      = Except.error (RunErr.validation es) ∧ Viol.outputs "A".data ∈ es :=
  cross_scope_outputs_coupling_blocks_run _ "A".data ["A".data]
    (by decide) (by decide) (by decide) (by decide)

/-- Counterexample to C2 as stated: in same-scope rename mode the run never
invokes the reference validator (`run` guards it with
`source_stack != target_stack`), so renaming a resource referenced from the
outputs section passes every pre-mutation check and the run proceeds to the
mutating same-stack refactor calls. -/
theorem same_stack_rename_outputs_not_blocked_cex :
    runPreflight
      { sourceStack := "s".data, targetStack := "s".data, importMode := false,
        template := exOut, selected := [("A".data, "T".data)],
        mapping := [("A".data, "B".data)] }
      = Except.ok RunPlan.sameStackRefactor ∧
    lookupF (find_all_references exOut) keyOutputs = some ["A".data] ∧
    "A".data ∈ movingKeys [("A".data, "B".data)] :=
  ⟨rfl, by decide, by decide⟩

-- ============================================================
-- Claim C5: import-mode parameter precondition
-- ============================================================

/-- Claim C5 (corrected): in cross-scope import mode, once the
dangling-reference validation has passed, a move set in which some selected
moving resource depends on source parameters fails with the fatal
parameter-block error, listing exactly the mapping keys that are selected and
parameter-dependent together with their resource types and the parameters
involved — strictly before any mutating call (every `runPreflight` error
precedes the returned plan). When the dangling-reference validation fails
instead, the run still stops before any mutating call but with the reference
violations, not the parameter listing (see the counterexample). -/
theorem import_mode_blocks_param_dependent_moves
    (inp : RunInput)
    (hcross : inp.sourceStack ≠ inp.targetStack)
    (himp : inp.importMode = true)
    (hval : validate_move_references inp.template inp.mapping = Except.ok ())
    (hsome : ∃ old ∈ movingKeys inp.mapping,
      (lookupF inp.selected old).isSome ∧ paramDependsOf inp.template old ≠ []) :
    runPreflight inp = Except.error (RunErr.paramBlock (blockedParams inp)) ∧
    (∀ b, b ∈ blockedParams inp ↔
      ∃ nid, (b.1, nid) ∈ inp.mapping ∧ lookupF inp.selected b.1 = some b.2.1 ∧
        b.2.2 = paramDependsOf inp.template b.1 ∧ b.2.2 ≠ []) ∧
    (∀ old ∈ movingKeys inp.mapping, (lookupF inp.selected old).isSome →
      paramDependsOf inp.template old ≠ [] →
      ∃ ty, (old, ty, paramDependsOf inp.template old) ∈ blockedParams inp) := by
  have hmem : ∀ b, b ∈ blockedParams inp ↔
      ∃ nid, (b.1, nid) ∈ inp.mapping ∧ lookupF inp.selected b.1 = some b.2.1 ∧
        b.2.2 = paramDependsOf inp.template b.1 ∧ b.2.2 ≠ [] := by
    intro b
    unfold blockedParams
    rw [List.mem_filterMap]
    constructor
    · rintro ⟨⟨old, nid⟩, hp, hf⟩
      cases hsel : lookupF inp.selected old with
      | none =>
        rw [hsel] at hf
        exact Option.noConfusion hf
      | some ty =>
        rw [hsel] at hf
        have hf' : (if paramDependsOf inp.template old = [] then none
            else some (old, ty, paramDependsOf inp.template old)) = some b := hf
        by_cases hds : paramDependsOf inp.template old = []
        · rw [if_pos hds] at hf'
          exact Option.noConfusion hf'
        · rw [if_neg hds] at hf'
          injection hf' with hf'
          subst hf'
          exact ⟨nid, hp, hsel, rfl, hds⟩
    · rintro ⟨nid, hp, hsel, hds, hne'⟩
      refine ⟨(b.1, nid), hp, ?_⟩
      show (match lookupF inp.selected b.1 with
        | none => none
        | some ty =>
          if paramDependsOf inp.template b.1 = [] then none
          else some (b.1, ty, paramDependsOf inp.template b.1)) = some b
      rw [hsel]
      show (if paramDependsOf inp.template b.1 = [] then none
          else some (b.1, b.2.1, paramDependsOf inp.template b.1)) = some b
      rw [if_neg (fun hh => hne' (hds.trans hh)), ← hds]
  have hfacts : ∀ old ∈ movingKeys inp.mapping, (lookupF inp.selected old).isSome →
      paramDependsOf inp.template old ≠ [] →
      ∃ ty, (old, ty, paramDependsOf inp.template old) ∈ blockedParams inp := by
    intro old hold hsel hds
    obtain ⟨nid, hnid⟩ := List.mem_map.mp hold
    obtain ⟨ty, hty⟩ := Option.isSome_iff_exists.mp hsel
    refine ⟨ty, (hmem (old, ty, paramDependsOf inp.template old)).mpr ?_⟩
    exact ⟨nid.2, by
      have : nid = (old, nid.2) := by
        obtain ⟨a, bb⟩ := nid
        simp only at hnid ⊢
        rw [hnid.2]
      rw [← this]; exact hnid.1, hty, rfl, hds⟩
  refine ⟨?_, hmem, hfacts⟩
  obtain ⟨old, hold, hsel, hds⟩ := hsome
  have hbne : blockedParams inp ≠ [] := by
    obtain ⟨ty, hty⟩ := hfacts old hold hsel hds
    intro hnil
    rw [hnil] at hty
    exact List.not_mem_nil _ hty
  unfold runPreflight
  rw [if_neg hcross, hval]
  have himp' : ¬ ¬ inp.importMode = true := by rw [himp]; simp
  rw [if_neg himp', if_pos hbne]

/-- Import-mode template whose single moving resource depends on a source
parameter and on nothing else. -/
def exImp : Value :=
  Value.obj
    [(keyParameters, Value.obj [("P".data, Value.obj [])]),
     (keyResources, Value.obj
       [("A".data, Value.obj
          [(keyType, Value.str "T".data),
           ("Properties".data, Value.obj
             [("X".data, Value.obj [(keyRef, Value.str "P".data)])])])])]

/-- Concrete import-mode run input for the C5 witness. -/
def exImpInp : RunInput :=
  { sourceStack := "s".data, targetStack := "t".data, importMode := true,
    template := exImp, selected := [("A".data, "T".data)],
    mapping := [("A".data, "A".data)] }

/-- Witness for C5 at a concrete import-mode input. -/
theorem import_mode_blocks_param_dependent_moves_witness :
    runPreflight exImpInp
      = Except.error (RunErr.paramBlock (blockedParams exImpInp)) :=
  (import_mode_blocks_param_dependent_moves exImpInp (by decide) rfl rfl
    ⟨"A".data, by decide, by decide, by decide⟩).1

/-- Import-mode template where the moving resource depends both on a source
parameter and on a staying resource. -/
def exImp2 : Value :=
  Value.obj
    [(keyParameters, Value.obj [("P".data, Value.obj [])]),
     (keyResources, Value.obj
       [("A".data, Value.obj
          [(keyType, Value.str "T".data),
           ("Properties".data, Value.obj
             [("X".data, Value.obj [(keyRef, Value.str "P".data)]),
              ("Y".data, Value.obj [(keyRef, Value.str "Bee".data)])])]),
        ("Bee".data, Value.obj [(keyType, Value.str "T".data)])])]

/-- Counterexample to C5 as stated: the moving resource `A` depends on the
source parameter `P`, yet the run's fatal error is the dangling-reference
violation (`A` depends on the staying `Bee`), produced by the validator that
runs before the import-mode parameter check; the error does not list `P`.
The run does still fail before any mutating call. -/
theorem import_param_block_preempted_cex :
    runPreflight
      { sourceStack := "s".data, targetStack := "t".data, importMode := true,
        template := exImp2, selected := [("A".data, "T".data), ("Bee".data, "T".data)],
        mapping := [("A".data, "A".data)] }
      = Except.error (RunErr.validation [Viol.mover "A".data "Bee".data]) ∧
    paramDependsOf exImp2 "A".data = ["P".data] ∧
    "A".data ∈ movingKeys [(("A".data : CStr), ("A".data : CStr))] :=
  ⟨rfl, by decide, by decide⟩

-- ============================================================
-- Claim C9: the diff/merge operators panic without an object-valued
-- `Resources` section
-- ============================================================

/-- Shorthand for a template whose `Resources` key is absent or not an
object (including templates that are not objects at all): exactly the inputs
on which the diff/merge operators' unwrap panics. -/
def BadResources (t : Value) : Prop := resourcesObj t = none

theorem retain_none_of_bad (t : Value) (ids : List CStr) (h : BadResources t) :
    retain_resources t ids = none := by
  have h' : resourcesObj t = none := h
  simp [retain_resources, h']

theorem remove_none_of_bad (t : Value) (ids : List CStr) (h : BadResources t) :
    remove_resources t ids = none := by
  have h' : resourcesObj t = none := h
  simp [remove_resources, h']

theorem add_none_of_bad_target (t s : Value) (mapping : List (CStr × CStr))
    (h : BadResources t) : add_resources t s mapping = none := by
  have h' : resourcesObj t = none := h
  simp [add_resources, h']

theorem add_none_of_bad_source (t s : Value) (mapping : List (CStr × CStr))
    (tm tres : List (CStr × Value))
    (ht : resourcesObj t = some (tm, tres))
    (h : BadResources s) : add_resources t s mapping = none := by
  have h' : resourcesObj s = none := h
  simp [add_resources, ht, h']

/-- Claim C9 (confirmed): `retain_resources`, `remove_resources` and
`add_resources` are partial at their public interface: whenever a template's
`Resources` key is absent or not an object (for `add_resources`, on either
the target or the source side), the operation reaches its panic branch,
modelled here by returning `none`. -/
theorem diff_merge_operators_panic_without_resources
    (t s u : Value) (ids : List CStr) (mapping : List (CStr × CStr))
    (tm tres : List (CStr × Value))
    (hbad : BadResources t)
    (hgood : resourcesObj u = some (tm, tres)) :
    retain_resources t ids = none ∧
    remove_resources t ids = none ∧
    add_resources t s mapping = none ∧
    add_resources u t mapping = none := by
  exact ⟨retain_none_of_bad t ids hbad, remove_none_of_bad t ids hbad,
    add_none_of_bad_target t s mapping hbad,
    add_none_of_bad_source u t mapping tm tres hgood hbad⟩

/-- Witness for C9 at a concrete input: an array-valued template (whose
`Resources` access panics) and a template with an object-valued `Resources`
section. -/
theorem diff_merge_operators_panic_without_resources_witness :
    retain_resources (Value.arr []) [] = none ∧
    remove_resources (Value.arr []) [] = none ∧
    add_resources (Value.arr []) Value.null [] = none ∧
    add_resources (Value.obj [(keyResources, Value.obj [])]) (Value.arr []) [] = none :=
  diff_merge_operators_panic_without_resources (Value.arr []) Value.null
    (Value.obj [(keyResources, Value.obj [])]) [] []
    [(keyResources, Value.obj [])] [] rfl rfl

-- ============================================================
-- Claim C6: defaults assigned by `set_default_deletion_policy`
-- ============================================================

/-- Update applied to one listed resource by `set_default_deletion_policy`:
identity unless the resource is an object lacking an explicit retention
policy, in which case the type-specific default is inserted. -/
def policyUpd (r : Value) : Value :=
  match r with
  | .obj ro =>
    if (lookupF ro keyDelPol).isSome then r
    else
      match defaultPolicyFor ro with
      | some p => .obj (insertF ro keyDelPol (.str p))
      | none => r
  | _ => r

/-- A resource on which `set_default_deletion_policy` does not panic: either
it already has a policy or its `Type` field is a string. -/
def okAtB (res : List (CStr × Value)) (id : CStr) : Bool :=
  match lookupF res id with
  | some (.obj ro) => (lookupF ro keyDelPol).isSome || (defaultPolicyFor ro).isSome
  | _ => true

theorem policyUpd_idem (r : Value) : policyUpd (policyUpd r) = policyUpd r := by
  cases r with
  | obj ro =>
    by_cases hd : (lookupF ro keyDelPol).isSome
    · simp [policyUpd, hd]
    · cases hp : defaultPolicyFor ro with
      | none => simp [policyUpd, hd, hp]
      | some p =>
        simp only [policyUpd, hd, hp, if_neg, Bool.false_eq_true, ite_false]
        rw [if_pos]
        simp [lookupF_insertF_self]
  | null => rfl
  | boolv b => rfl
  | num n => rfl
  | str s => rfl
  | arr vs => rfl

theorem okAtB_policyUpd (res : List (CStr × Value)) (id : CStr) (r : Value)
    (h : okAtB res id = true) (hr : lookupF res id = some r) :
    okAtB (insertF res id (policyUpd r)) id = true := by
  unfold okAtB at h ⊢
  rw [hr] at h
  rw [lookupF_insertF_self]
  cases r with
  | obj ro =>
    by_cases hd : (lookupF ro keyDelPol).isSome
    · simp [policyUpd, hd]
    · simp only [hd, Bool.false_or] at h
      cases hp : defaultPolicyFor ro with
      | none => rw [hp] at h; simp at h
      | some p =>
        simp only [policyUpd, hd, hp, Bool.false_eq_true, ite_false]
        simp [lookupF_insertF_self]
  | null => rfl
  | boolv b => rfl
  | num n => rfl
  | str s => rfl
  | arr vs => rfl

theorem applyDefaultPolicy_char (res : List (CStr × Value)) (id : CStr)
    (h : okAtB res id = true) :
    ∃ res₁, applyDefaultPolicy res id = some res₁ ∧
      ∀ q, lookupF res₁ q =
        if q = id then (lookupF res id).map policyUpd else lookupF res q := by
  unfold okAtB at h
  cases hr : lookupF res id with
  | none =>
    refine ⟨res, by simp [applyDefaultPolicy, hr], fun q => ?_⟩
    by_cases hq : q = id
    · subst hq; rw [if_pos rfl, hr]; rfl
    · rw [if_neg hq]
  | some r =>
    rw [hr] at h
    cases r with
    | obj ro =>
      by_cases hd : (lookupF ro keyDelPol).isSome
      · refine ⟨res, by simp [applyDefaultPolicy, hr, hd], fun q => ?_⟩
        by_cases hq : q = id
        · subst hq; rw [if_pos rfl, hr]; simp [policyUpd, hd]
        · rw [if_neg hq]
      · simp only [hd, Bool.false_or] at h
        cases hp : defaultPolicyFor ro with
        | none => rw [hp] at h; simp at h
        | some p =>
          refine ⟨insertF res id (.obj (insertF ro keyDelPol (.str p))), ?_, fun q => ?_⟩
          · simp [applyDefaultPolicy, hr, hd, hp]
          · by_cases hq : q = id
            · subst hq
              simp [lookupF_insertF_self, hr, policyUpd, hd, hp]
            · rw [if_neg hq, lookupF_insertF_ne _ _ _ _ hq]
    | null =>
      refine ⟨res, by simp [applyDefaultPolicy, hr], fun q => ?_⟩
      by_cases hq : q = id
      · subst hq; rw [if_pos rfl, hr]; rfl
      · rw [if_neg hq]
    | boolv b =>
      refine ⟨res, by simp [applyDefaultPolicy, hr], fun q => ?_⟩
      by_cases hq : q = id
      · subst hq; rw [if_pos rfl, hr]; rfl
      · rw [if_neg hq]
    | num n =>
      refine ⟨res, by simp [applyDefaultPolicy, hr], fun q => ?_⟩
      by_cases hq : q = id
      · subst hq; rw [if_pos rfl, hr]; rfl
      · rw [if_neg hq]
    | str s =>
      refine ⟨res, by simp [applyDefaultPolicy, hr], fun q => ?_⟩
      by_cases hq : q = id
      · subst hq; rw [if_pos rfl, hr]; rfl
      · rw [if_neg hq]
    | arr vs =>
      refine ⟨res, by simp [applyDefaultPolicy, hr], fun q => ?_⟩
      by_cases hq : q = id
      · subst hq; rw [if_pos rfl, hr]; rfl
      · rw [if_neg hq]

theorem foldPolicy_char :
    ∀ (ids : List CStr) (res : List (CStr × Value)),
      (∀ id ∈ ids, okAtB res id = true) →
      ∃ res', List.foldlM applyDefaultPolicy res ids = some res' ∧
        ∀ q, lookupF res' q =
          (lookupF res q).map (fun r => if q ∈ ids then policyUpd r else r) := by
  intro ids
  induction ids with
  | nil =>
    intro res _
    refine ⟨res, by simp, fun q => ?_⟩
    simp
  | cons id₀ rest ih =>
    intro res hok
    obtain ⟨res₁, h₁, hchar₁⟩ :=
      applyDefaultPolicy_char res id₀ (hok id₀ (by simp))
    have hok₁ : ∀ id ∈ rest, okAtB res₁ id = true := by
      intro id hid
      by_cases hq : id = id₀
      · subst hq
        unfold okAtB
        rw [hchar₁ id, if_pos rfl]
        cases hr : lookupF res id with
        | none => rfl
        | some r =>
          have hthis := okAtB_policyUpd res id r (hok id (by simp)) hr
          unfold okAtB at hthis
          rw [lookupF_insertF_self] at hthis
          exact hthis
      · unfold okAtB
        rw [hchar₁ id, if_neg hq]
        have := hok id (by simp [hid])
        unfold okAtB at this
        exact this
    obtain ⟨res', h₂, hchar₂⟩ := ih res₁ hok₁
    refine ⟨res', ?_, fun q => ?_⟩
    · rw [List.foldlM_cons, h₁]; exact h₂
    · rw [hchar₂ q, hchar₁ q]
      by_cases hq : q = id₀
      · subst hq
        cases hr : lookupF res q with
        | none => simp
        | some r =>
          simp only [if_pos rfl, Option.map_some, List.mem_cons, true_or, if_pos]
          by_cases hm : q ∈ rest
          · simp [hm, policyUpd_idem]
          · simp [hm]
      · rw [if_neg hq]
        cases lookupF res q with
        | none => simp
        | some r =>
          simp [hq]

/-- Claim C6 (confirmed): `set_default_deletion_policy` assigns to each
listed declaration lacking an explicit retention-policy field a type-specific
default — a relational-cluster declaration always gets Snapshot; a
relational-instance declaration gets Delete if it names a parent cluster and
Snapshot otherwise; any other type gets Delete — and leaves untouched both
every declaration with an explicit policy and every unlisted declaration.
The hypotheses state that the template has an object-valued `Resources`
section and that no listed declaration triggers the code's `Type` unwrap
panic. -/
theorem set_default_deletion_policy_spec
    (t : Value) (m res : List (CStr × Value)) (ids : List CStr)
    (hres : resourcesObj t = some (m, res))
    (hok : ∀ id ∈ ids, okAtB res id = true) :
    ∃ res', set_default_deletion_policy t ids
        = some (Value.obj (insertF m keyResources (Value.obj res'))) ∧
      (∀ q, q ∉ ids → lookupF res' q = lookupF res q) ∧
      (∀ q ∈ ids, ∀ ro, lookupF res q = some (Value.obj ro) →
        (lookupF ro keyDelPol).isSome → lookupF res' q = some (Value.obj ro)) ∧
      (∀ q ∈ ids, ∀ ro ty, lookupF res q = some (Value.obj ro) →
        lookupF ro keyDelPol = none → lookupF ro keyType = some (Value.str ty) →
        lookupF res' q = some (Value.obj (insertF ro keyDelPol (Value.str
          (if ty = clusterType then polSnapshot
           else if ty = instanceType then
             (if (lookupF ro keyDBCluster).isSome then polDelete else polSnapshot)
           else polDelete))))) := by
  obtain ⟨res', hfold, hchar⟩ := foldPolicy_char ids res hok
  refine ⟨res', ?_, ?_, ?_, ?_⟩
  · unfold set_default_deletion_policy
    rw [hres]
    show (List.foldlM applyDefaultPolicy res ids).map
        (fun res' => Value.obj (insertF m keyResources (Value.obj res'))) = _
    rw [hfold]
    rfl
  · intro q hq
    rw [hchar q]
    cases lookupF res q with
    | none => rfl
    | some r => rw [Option.map_some', if_neg hq]
  · intro q hq ro hro hd
    rw [hchar q, hro]
    have hupd : policyUpd (Value.obj ro) = Value.obj ro := by
      simp [policyUpd, hd]
    rw [Option.map_some', if_pos hq, hupd]
  · intro q hq ro ty hro hd hty
    rw [hchar q, hro]
    have hupd : policyUpd (Value.obj ro)
        = Value.obj (insertF ro keyDelPol (Value.str
            (if ty = clusterType then polSnapshot
             else if ty = instanceType then
               (if (lookupF ro keyDBCluster).isSome then polDelete else polSnapshot)
             else polDelete))) := by
      simp [policyUpd, hd, defaultPolicyFor, hty]
    rw [Option.map_some', if_pos hq, hupd]

/-- Witness for C6: a resources section containing a relational cluster
without policy, relational instances with and without a parent-cluster field,
another resource type, and a declaration with an explicit policy. -/
theorem set_default_deletion_policy_spec_witness :
    ∃ res',
      set_default_deletion_policy
        (Value.obj [(keyResources, Value.obj
          [("Db".data, Value.obj [(keyType, Value.str clusterType)]),
           ("InstA".data, Value.obj
             [(keyType, Value.str instanceType), (keyDBCluster, Value.str "c".data)]),
           ("InstB".data, Value.obj [(keyType, Value.str instanceType)]),
           ("Fn".data, Value.obj [(keyType, Value.str "AWS::Lambda::Function".data)]),
           ("Keep".data, Value.obj
             [(keyType, Value.str clusterType), (keyDelPol, Value.str polDelete)])])])
        ["Db".data, "InstA".data, "InstB".data, "Fn".data, "Keep".data]
        = some (Value.obj [(keyResources, Value.obj res')]) ∧
      lookupF res' "Db".data
        = some (Value.obj [(keyType, Value.str clusterType),
                           (keyDelPol, Value.str polSnapshot)]) ∧
      lookupF res' "InstA".data
        = some (Value.obj [(keyType, Value.str instanceType),
                           (keyDBCluster, Value.str "c".data),
                           (keyDelPol, Value.str polDelete)]) ∧
      lookupF res' "InstB".data
        = some (Value.obj [(keyType, Value.str instanceType),
                           (keyDelPol, Value.str polSnapshot)]) ∧
      lookupF res' "Fn".data
        = some (Value.obj [(keyType, Value.str "AWS::Lambda::Function".data),
                           (keyDelPol, Value.str polDelete)]) ∧
      lookupF res' "Keep".data
        = some (Value.obj [(keyType, Value.str clusterType),
                           (keyDelPol, Value.str polDelete)]) := by
  obtain ⟨res', h1, _, h3, h4⟩ :=
    set_default_deletion_policy_spec
      (Value.obj [(keyResources, Value.obj
        [("Db".data, Value.obj [(keyType, Value.str clusterType)]),
         ("InstA".data, Value.obj
           [(keyType, Value.str instanceType), (keyDBCluster, Value.str "c".data)]),
         ("InstB".data, Value.obj [(keyType, Value.str instanceType)]),
         ("Fn".data, Value.obj [(keyType, Value.str "AWS::Lambda::Function".data)]),
         ("Keep".data, Value.obj
           [(keyType, Value.str clusterType), (keyDelPol, Value.str polDelete)])])])
      [(keyResources, Value.obj
        [("Db".data, Value.obj [(keyType, Value.str clusterType)]),
         ("InstA".data, Value.obj
           [(keyType, Value.str instanceType), (keyDBCluster, Value.str "c".data)]),
         ("InstB".data, Value.obj [(keyType, Value.str instanceType)]),
         ("Fn".data, Value.obj [(keyType, Value.str "AWS::Lambda::Function".data)]),
         ("Keep".data, Value.obj
           [(keyType, Value.str clusterType), (keyDelPol, Value.str polDelete)])])]
      [("Db".data, Value.obj [(keyType, Value.str clusterType)]),
       ("InstA".data, Value.obj
         [(keyType, Value.str instanceType), (keyDBCluster, Value.str "c".data)]),
       ("InstB".data, Value.obj [(keyType, Value.str instanceType)]),
       ("Fn".data, Value.obj [(keyType, Value.str "AWS::Lambda::Function".data)]),
       ("Keep".data, Value.obj
         [(keyType, Value.str clusterType), (keyDelPol, Value.str polDelete)])]
      ["Db".data, "InstA".data, "InstB".data, "Fn".data, "Keep".data]
      rfl (by decide)
  refine ⟨res', h1, ?_, ?_, ?_, ?_, ?_⟩
  · exact h4 "Db".data (by decide) _ _ rfl rfl rfl
  · exact h4 "InstA".data (by decide) _ _ rfl rfl rfl
  · exact h4 "InstB".data (by decide) _ _ rfl rfl rfl
  · exact h4 "Fn".data (by decide) _ _ rfl rfl rfl
  · exact h3 "Keep".data (by decide) _ rfl rfl

-- ============================================================
-- Rewriter unfolding lemmas
-- ============================================================

theorem travF_null (f : Nat) (old new : CStr) : travF f .null old new = .null := by
  cases f <;> rfl

theorem travF_boolv (f : Nat) (b : Bool) (old new : CStr) :
    travF f (.boolv b) old new = .boolv b := by
  cases f <;> rfl

theorem travF_num (f : Nat) (n : Int) (old new : CStr) :
    travF f (.num n) old new = .num n := by
  cases f <;> rfl

theorem travF_str (f : Nat) (s : CStr) (old new : CStr) :
    travF f (.str s) old new = .str s := by
  cases f <;> rfl

theorem travF_arr (f : Nat) (vs : List Value) (old new : CStr) :
    travF (f + 1) (.arr vs) old new = .arr (vs.map (fun x => travF f x old new)) := rfl

theorem travF_obj_ref (f : Nat) (m : List (CStr × Value)) (old new : CStr)
    (h : refMatchB m old = true) :
    travF (f + 1) (.obj m) old new = .obj (insertF m keyRef (.str new)) := by
  show (if refMatchB m old = true then _ else _) = _
  rw [if_pos h]

theorem travF_obj_ga (f : Nat) (m : List (CStr × Value)) (vs : List Value)
    (old new : CStr) (h1 : refMatchB m old = false) (h2 : gaTail m old = some vs) :
    travF (f + 1) (.obj m) old new = .obj (insertF m keyGA (.arr (.str new :: vs))) := by
  show (if refMatchB m old = true then _ else _) = _
  rw [if_neg (by rw [h1]; exact Bool.false_ne_true)]
  show (match gaTail m old with
    | some vs => Value.obj (insertF m keyGA (.arr (.str new :: vs)))
    | none => _) = _
  rw [h2]

theorem travF_obj_normal (f : Nat) (m : List (CStr × Value)) (old new : CStr)
    (h1 : refMatchB m old = false) (h2 : gaTail m old = none) :
    travF (f + 1) (.obj m) old new =
      .obj ((depStep (subStep f m old new) old new).map
        (fun kv => (kv.1, travF f kv.2 old new))) := by
  show (if refMatchB m old = true then _ else _) = _
  rw [if_neg (by rw [h1]; exact Bool.false_ne_true)]
  show (match gaTail m old with
    | some vs => Value.obj (insertF m keyGA (.arr (.str new :: vs)))
    | none => _) = _
  rw [h2]
  rfl

theorem lookupF_mapTrav (l : List (CStr × Value)) (f : Nat) (old new : CStr)
    (q : CStr) :
    lookupF (l.map (fun kv => (kv.1, travF f kv.2 old new))) q
      = (lookupF l q).map (fun x => travF f x old new) :=
  lookupF_map_value l (fun x => travF f x old new) q

theorem refMatchB_of_none (m : List (CStr × Value)) (old : CStr)
    (h : lookupF m keyRef = none) : refMatchB m old = false := by
  unfold refMatchB
  rw [h]

theorem gaTail_of_none (m : List (CStr × Value)) (old : CStr)
    (h : lookupF m keyGA = none) : gaTail m old = none := by
  unfold gaTail
  rw [h]

theorem lookupF_subStep_ne (f : Nat) (m : List (CStr × Value)) (old new : CStr)
    (k : CStr) (hk : k ≠ keySub) :
    lookupF (subStep f m old new) k = lookupF m k := by
  unfold subStep
  cases lookupF m keySub with
  | none => rfl
  | some x => exact lookupF_insertF_ne m keySub k _ hk

theorem lookupF_depStep_ne (m : List (CStr × Value)) (old new : CStr)
    (k : CStr) (hk : k ≠ keyDep) :
    lookupF (depStep m old new) k = lookupF m k := by
  unfold depStep
  cases lookupF m keyDep with
  | none => rfl
  | some x => exact lookupF_insertF_ne m keyDep k _ hk

theorem lookupF_depStep_self (m : List (CStr × Value)) (old new : CStr)
    (x : Value) (h : lookupF m keyDep = some x) :
    lookupF (depStep m old new) keyDep = some (depUpd x old new) := by
  unfold depStep
  rw [h]
  exact lookupF_insertF_self m keyDep _

-- ============================================================
-- Claim C10: early returns of the rewriter on `Ref` and `Fn::GetAtt`
-- ============================================================

/-- Claim C10 (confirmed): when the rewriter finds a `Ref` whose string value
equals the old identifier (and is not a pseudo-parameter), or — the `Ref`
branch not having fired — an `Fn::GetAtt` array headed by the old identifier,
it replaces exactly that construct and returns the object with every other
field verbatim (no recursion into sibling fields). The final conjunct
exhibits a sibling reference construct left unrewritten by such a call. -/
theorem traverse_early_return_on_ref_getatt :
    (∀ (m : List (CStr × Value)) (old new : CStr),
      lookupF m keyRef = some (.str old) → isPseudo old = false →
      traverse_and_update (.obj m) old new = .obj (insertF m keyRef (.str new))) ∧
    (∀ (m : List (CStr × Value)) (vs : List Value) (old new : CStr),
      refMatchB m old = false →
      lookupF m keyGA = some (.arr (.str old :: vs)) →
      traverse_and_update (.obj m) old new
        = .obj (insertF m keyGA (.arr (.str new :: vs)))) ∧
    traverse_and_update
      (.obj [(keyRef, .str "Old".data),
             ("Sib".data, .obj [(keyRef, .str "Old".data)])])
      "Old".data "New".data
      = .obj [(keyRef, .str "New".data),
              ("Sib".data, .obj [(keyRef, .str "Old".data)])] := by
  refine ⟨?_, ?_, rfl⟩
  · intro m old new h hp
    have hm : refMatchB m old = true := by
      unfold refMatchB
      rw [h]
      show (decide (old = old) && !isPseudo old) = true
      rw [hp]
      simp
    unfold traverse_and_update
    rw [show vsize (.obj m) = fsize m + 1 from rfl]
    exact travF_obj_ref (fsize m) m old new hm
  · intro m vs old new h1 h2
    have hg : gaTail m old = some vs := by
      unfold gaTail
      rw [h2]
      show (if old = old then some vs else none) = some vs
      rw [if_pos rfl]
    unfold traverse_and_update
    rw [show vsize (.obj m) = fsize m + 1 from rfl]
    exact travF_obj_ga (fsize m) m vs old new h1 hg

/-- Witness for C10 at concrete objects. -/
theorem traverse_early_return_on_ref_getatt_witness :
    traverse_and_update (.obj [(keyRef, .str "A".data)]) "A".data "B".data
      = .obj (insertF [(keyRef, Value.str "A".data)] keyRef (.str "B".data)) ∧
    traverse_and_update (.obj [(keyGA, .arr [.str "A".data, .str "x".data])])
        "A".data "B".data
      = .obj (insertF [(keyGA, Value.arr [Value.str "A".data, Value.str "x".data])]
          keyGA (.arr (.str "B".data :: [Value.str "x".data]))) :=
  ⟨traverse_early_return_on_ref_getatt.1 _ "A".data "B".data rfl rfl,
   traverse_early_return_on_ref_getatt.2.1 _ [Value.str "x".data] "A".data "B".data
     rfl rfl⟩

-- ============================================================
-- Claim C4: `DependsOn` rewriting does not require a `Type` field
-- ============================================================

theorem travF_str_list (f : Nat) (l : List CStr) (old new : CStr) :
    travF f (.arr (l.map Value.str)) old new = .arr (l.map Value.str) := by
  cases f with
  | zero => rfl
  | succ f =>
    rw [travF_arr, List.map_map]
    congr 1
    apply List.map_congr_left
    intro s _
    exact travF_str f s old new

/-- Claim C4 (corrected): the rewriter replaces a matching `DependsOn`
construct (string or all-string-array form) in ANY object containing the key
— with no requirement that the object also carry a `Type` field — unlike the
index builder, which only collects `DependsOn` inside `Type`-bearing objects.
The hypotheses only rule out the earlier `Ref`/`Fn::GetAtt` early returns. -/
theorem traverse_updates_dependson_any_object :
    (∀ (m : List (CStr × Value)) (old new : CStr),
      lookupF m keyRef = none → lookupF m keyGA = none →
      lookupF m keyDep = some (.str old) →
      lookupV (traverse_and_update (.obj m) old new) keyDep = some (.str new)) ∧
    (∀ (m : List (CStr × Value)) (vs : List CStr) (old new : CStr),
      lookupF m keyRef = none → lookupF m keyGA = none →
      lookupF m keyDep = some (.arr (vs.map Value.str)) →
      lookupV (traverse_and_update (.obj m) old new) keyDep
        = some (.arr ((vs.map (fun s => if s = old then new else s)).map Value.str))) := by
  constructor
  · intro m old new hr hg hd
    unfold traverse_and_update
    rw [show vsize (.obj m) = fsize m + 1 from rfl,
      travF_obj_normal (fsize m) m old new (refMatchB_of_none m old hr)
        (gaTail_of_none m old hg)]
    show lookupF ((depStep (subStep (fsize m) m old new) old new).map
      (fun kv => (kv.1, travF (fsize m) kv.2 old new))) keyDep = _
    rw [lookupF_mapTrav]
    have hds : lookupF (subStep (fsize m) m old new) keyDep = some (.str old) := by
      rw [lookupF_subStep_ne _ _ _ _ _ (by decide), hd]
    rw [lookupF_depStep_self _ _ _ _ hds]
    show some (travF (fsize m) (depUpd (.str old) old new) (old) (new)) = _
    have : depUpd (.str old) old new = .str new := by
      unfold depUpd
      show (if old = old then Value.str new else Value.str old) = Value.str new
      rw [if_pos rfl]
    rw [this, travF_str]
  · intro m vs old new hr hg hd
    unfold traverse_and_update
    rw [show vsize (.obj m) = fsize m + 1 from rfl,
      travF_obj_normal (fsize m) m old new (refMatchB_of_none m old hr)
        (gaTail_of_none m old hg)]
    show lookupF ((depStep (subStep (fsize m) m old new) old new).map
      (fun kv => (kv.1, travF (fsize m) kv.2 old new))) keyDep = _
    rw [lookupF_mapTrav]
    have hds : lookupF (subStep (fsize m) m old new) keyDep
        = some (.arr (vs.map Value.str)) := by
      rw [lookupF_subStep_ne _ _ _ _ _ (by decide), hd]
    rw [lookupF_depStep_self _ _ _ _ hds]
    have hupd : depUpd (.arr (vs.map Value.str)) old new
        = .arr ((vs.map (fun s => if s = old then new else s)).map Value.str) := by
      unfold depUpd
      show Value.arr ((vs.map Value.str).map (fun v => match v with
        | .str s => if s = old then Value.str new else Value.str s
        | _ => v)) = _
      rw [List.map_map, List.map_map]
      congr 1
      apply List.map_congr_left
      intro s _
      by_cases hso : s = old
      · simp [hso]
      · simp [hso]
    rw [hupd]
    show some (travF (fsize m)
      (.arr ((vs.map (fun s => if s = old then new else s)).map Value.str)) old new) = _
    rw [travF_str_list]

/-- Witness for C4: a matching `DependsOn` in an object that has no `Type`
field, in both string and array form. -/
theorem traverse_updates_dependson_any_object_witness :
    lookupV (traverse_and_update (.obj [(keyDep, .str "Old".data)])
        "Old".data "New".data) keyDep = some (.str "New".data) ∧
    lookupV (traverse_and_update
        (.obj [(keyDep, .arr [Value.str "Old".data, Value.str "Other".data])])
        "Old".data "New".data) keyDep
      = some (.arr [Value.str "New".data, Value.str "Other".data]) := by
  refine ⟨traverse_updates_dependson_any_object.1 _ "Old".data "New".data rfl rfl rfl, ?_⟩
  have h := traverse_updates_dependson_any_object.2
    [(keyDep, .arr [Value.str "Old".data, Value.str "Other".data])]
    ["Old".data, "Other".data] "Old".data "New".data rfl rfl rfl
  exact h.trans (by rfl)

/-- Counterexample to C4 as stated: the rewriter replaces a matching
`DependsOn` entry in an object with NO `Type` field, which the builder would
never recognize as an ordering construct. -/
theorem dependson_rewrite_without_type_cex :
    traverse_and_update (.obj [(keyDep, .str "Old".data)]) "Old".data "New".data
      = .obj [(keyDep, .str "New".data)] ∧
    lookupF [((keyDep : CStr), Value.str "Old".data)] keyType = none ∧
    depNames [((keyDep : CStr), Value.str "Old".data)] = [] :=
  ⟨rfl, rfl, rfl⟩

-- ============================================================
-- Claim C3: which declarants the index reports
-- ============================================================

/-- A subtree contains at least one construct that the collector reports
(amended recognition: the pseudo-parameter filter applies only to `Ref` and
to `Fn::Sub` placeholders; `Fn::GetAtt` and `DependsOn` names are reported
regardless of prefix; `DependsOn` only inside `Type`-bearing objects). -/
inductive HasRef : Value → Prop where
  | ref (m : List (CStr × Value)) (s : CStr) :
      lookupF m keyRef = some (.str s) → isPseudo s = false → HasRef (.obj m)
  | gaArr (m : List (CStr × Value)) (s : CStr) (rest : List Value) :
      lookupF m keyGA = some (.arr (.str s :: rest)) → HasRef (.obj m)
  | gaStr (m : List (CStr × Value)) (s : CStr) :
      lookupF m keyGA = some (.str s) → HasRef (.obj m)
  | subStr (m : List (CStr × Value)) (s : CStr) :
      lookupF m keySub = some (.str s) → extractSubRefs s ≠ [] → HasRef (.obj m)
  | subArr (m : List (CStr × Value)) (s : CStr) (rest : List Value) :
      lookupF m keySub = some (.arr (.str s :: rest)) → extractSubRefs s ≠ [] →
      HasRef (.obj m)
  | depStr (m : List (CStr × Value)) (s : CStr) :
      (lookupF m keyType).isSome → lookupF m keyDep = some (.str s) → HasRef (.obj m)
  | depArr (m : List (CStr × Value)) (vs : List Value) (s : CStr) :
      (lookupF m keyType).isSome → lookupF m keyDep = some (.arr vs) →
      Value.str s ∈ vs → HasRef (.obj m)
  | field (m : List (CStr × Value)) (kv : CStr × Value) :
      kv ∈ m → HasRef kv.2 → HasRef (.obj m)
  | elem (vs : List Value) (v : Value) : v ∈ vs → HasRef v → HasRef (.arr vs)

theorem collectElems_eq (vs : List Value) :
    collectElems vs = vs.flatMap collectRefs := by
  induction vs with
  | nil => rfl
  | cons v rest ih => rw [List.flatMap_cons, ← ih]; rfl

theorem collectFields_eq (m : List (CStr × Value)) :
    collectFields m = m.flatMap (fun kv => collectRefs kv.2) := by
  induction m with
  | nil => rfl
  | cons kv rest ih => rw [List.flatMap_cons, ← ih]; rfl

theorem vsize_le_of_mem_l (vs : List Value) (v : Value) (h : v ∈ vs) :
    vsize v ≤ lsize vs := by
  induction vs with
  | nil => cases h
  | cons w rest ih =>
    rcases List.mem_cons.mp h with he | hm
    · subst he
      show vsize v ≤ vsize v + lsize rest
      omega
    · have := ih hm
      show vsize v ≤ vsize w + lsize rest
      omega

theorem vsize_le_of_mem_f (m : List (CStr × Value)) (kv : CStr × Value) (h : kv ∈ m) :
    vsize kv.2 ≤ fsize m := by
  induction m with
  | nil => cases h
  | cons kw rest ih =>
    rcases List.mem_cons.mp h with he | hm
    · subst he
      show vsize kv.2 ≤ vsize kv.2 + fsize rest
      omega
    · have := ih hm
      show vsize kv.2 ≤ vsize kw.2 + fsize rest
      omega

theorem collect_ne_nil_iff_hasRef :
    ∀ (n : Nat) (v : Value), vsize v ≤ n → (collectRefs v ≠ [] ↔ HasRef v) := by
  intro n
  induction n with
  | zero =>
    intro v hv
    exfalso
    cases v <;> simp [vsize] at hv
  | succ n ih =>
    intro v hv
    cases v with
    | null => exact iff_of_false (fun h => h rfl) (fun h => by cases h)
    | boolv b => exact iff_of_false (fun h => h rfl) (fun h => by cases h)
    | num i => exact iff_of_false (fun h => h rfl) (fun h => by cases h)
    | str s => exact iff_of_false (fun h => h rfl) (fun h => by cases h)
    | arr vs =>
      have hco : collectRefs (.arr vs) = vs.flatMap collectRefs := collectElems_eq vs
      have hsz : lsize vs ≤ n := by
        have : vsize (Value.arr vs) = lsize vs + 1 := rfl
        omega
      constructor
      · intro hne
        rw [hco] at hne
        have : ¬ ∀ a ∈ vs, collectRefs a = [] := fun hall =>
          hne (List.flatMap_eq_nil_iff.mpr hall)
        push_neg at this
        obtain ⟨w, hw, hwne⟩ := this
        have hws : vsize w ≤ n := le_trans (vsize_le_of_mem_l vs w hw) hsz
        exact HasRef.elem vs w hw ((ih w hws).mp hwne)
      · intro h
        cases h with
        | elem vs w hw hr =>
          have hws : vsize w ≤ n := le_trans (vsize_le_of_mem_l vs w hw) hsz
          have hwne := (ih w hws).mpr hr
          obtain ⟨x, hx⟩ := List.exists_mem_of_ne_nil _ hwne
          rw [hco]
          exact List.ne_nil_of_mem (List.mem_flatMap.mpr ⟨w, hw, hx⟩)
    | obj m =>
      have hco : collectRefs (.obj m)
          = refNames m ++ gaNames m ++ subNames m ++ depNames m ++ collectFields m :=
        rfl
      have hsz : fsize m ≤ n := by
        have : vsize (Value.obj m) = fsize m + 1 := rfl
        omega
      constructor
      · intro hne
        rw [hco] at hne
        by_cases h1 : refNames m = []
        rotate_left
        · -- refNames non-empty
          unfold refNames at h1
          cases hl : lookupF m keyRef with
          | none => rw [hl] at h1; exact absurd rfl h1
          | some w =>
            rw [hl] at h1
            cases w with
            | str s =>
              have h1' : ¬ (if isPseudo s = true then ([] : List CStr) else [s]) = [] := h1
              by_cases hp : isPseudo s = true
              · rw [if_pos hp] at h1'; exact absurd rfl h1'
              · exact HasRef.ref m s hl (Bool.not_eq_true _ ▸ hp)
            | null => exact absurd rfl h1
            | boolv b => exact absurd rfl h1
            | num i => exact absurd rfl h1
            | arr vs => exact absurd rfl h1
            | obj mm => exact absurd rfl h1
        rw [h1, List.nil_append] at hne
        by_cases h2 : gaNames m = []
        rotate_left
        · unfold gaNames at h2
          cases hl : lookupF m keyGA with
          | none => rw [hl] at h2; exact absurd rfl h2
          | some w =>
            rw [hl] at h2
            cases w with
            | str s => exact HasRef.gaStr m s hl
            | arr vs =>
              cases vs with
              | nil => exact absurd rfl h2
              | cons v rest =>
                cases v with
                | str s => exact HasRef.gaArr m s rest hl
                | null => exact absurd rfl h2
                | boolv b => exact absurd rfl h2
                | num i => exact absurd rfl h2
                | arr vs2 => exact absurd rfl h2
                | obj mm => exact absurd rfl h2
            | null => exact absurd rfl h2
            | boolv b => exact absurd rfl h2
            | num i => exact absurd rfl h2
            | obj mm => exact absurd rfl h2
        rw [h2, List.nil_append] at hne
        by_cases h3 : subNames m = []
        rotate_left
        · unfold subNames at h3
          cases hl : lookupF m keySub with
          | none => rw [hl] at h3; exact absurd rfl h3
          | some w =>
            rw [hl] at h3
            cases w with
            | str s => exact HasRef.subStr m s hl h3
            | arr vs =>
              cases vs with
              | nil => exact absurd rfl h3
              | cons v rest =>
                cases v with
                | str s => exact HasRef.subArr m s rest hl h3
                | null => exact absurd rfl h3
                | boolv b => exact absurd rfl h3
                | num i => exact absurd rfl h3
                | arr vs2 => exact absurd rfl h3
                | obj mm => exact absurd rfl h3
            | null => exact absurd rfl h3
            | boolv b => exact absurd rfl h3
            | num i => exact absurd rfl h3
            | obj mm => exact absurd rfl h3
        rw [h3, List.nil_append] at hne
        by_cases h4 : depNames m = []
        rotate_left
        · unfold depNames at h4
          by_cases ht : (lookupF m keyType).isSome
          rotate_left
          · rw [if_neg ht] at h4
            exact absurd rfl h4
          rw [if_pos ht] at h4
          cases hl : lookupF m keyDep with
          | none => rw [hl] at h4; exact absurd rfl h4
          | some w =>
            rw [hl] at h4
            cases w with
            | str s => exact HasRef.depStr m s ht hl
            | arr vs =>
              have h4' : vs.filterMap
                  (fun v => match v with | Value.str s => some s | _ => none) ≠ [] := h4
              obtain ⟨x, hx⟩ := List.exists_mem_of_ne_nil _ h4'
              obtain ⟨v, hvmem, hveq⟩ := List.mem_filterMap.mp hx
              cases v with
              | str s => exact HasRef.depArr m vs s ht hl hvmem
              | null => exact Option.noConfusion hveq
              | boolv b => exact Option.noConfusion hveq
              | num i => exact Option.noConfusion hveq
              | arr vs2 => exact Option.noConfusion hveq
              | obj mm => exact Option.noConfusion hveq
            | null => exact absurd rfl h4
            | boolv b => exact absurd rfl h4
            | num i => exact absurd rfl h4
            | obj mm => exact absurd rfl h4
        rw [h4, List.nil_append] at hne
        rw [collectFields_eq] at hne
        have : ¬ ∀ kv ∈ m, collectRefs kv.2 = [] := fun hall =>
          hne (List.flatMap_eq_nil_iff.mpr hall)
        push_neg at this
        obtain ⟨kv, hkv, hkvne⟩ := this
        have hks : vsize kv.2 ≤ n := le_trans (vsize_le_of_mem_f m kv hkv) hsz
        exact HasRef.field m kv hkv ((ih kv.2 hks).mp hkvne)
      · intro h
        rw [hco]
        cases h with
        | ref m s hl hp =>
          apply List.ne_nil_of_mem (a := s)
          apply List.mem_append_left
          apply List.mem_append_left
          apply List.mem_append_left
          apply List.mem_append_left
          unfold refNames
          rw [hl]
          show s ∈ (if isPseudo s = true then ([] : List CStr) else [s])
          rw [hp]
          exact List.mem_singleton.mpr rfl
        | gaArr m s rest hl =>
          apply List.ne_nil_of_mem (a := s)
          apply List.mem_append_left
          apply List.mem_append_left
          apply List.mem_append_left
          apply List.mem_append_right
          unfold gaNames
          rw [hl]
          exact List.mem_singleton.mpr rfl
        | gaStr m s hl =>
          apply List.ne_nil_of_mem (a := s.takeWhile (fun c => c ≠ dotC))
          apply List.mem_append_left
          apply List.mem_append_left
          apply List.mem_append_left
          apply List.mem_append_right
          unfold gaNames
          rw [hl]
          exact List.mem_singleton.mpr rfl
        | subStr m s hl hs =>
          obtain ⟨x, hx⟩ := List.exists_mem_of_ne_nil _ hs
          apply List.ne_nil_of_mem (a := x)
          apply List.mem_append_left
          apply List.mem_append_left
          apply List.mem_append_right
          unfold subNames
          rw [hl]
          exact hx
        | subArr m s rest hl hs =>
          obtain ⟨x, hx⟩ := List.exists_mem_of_ne_nil _ hs
          apply List.ne_nil_of_mem (a := x)
          apply List.mem_append_left
          apply List.mem_append_left
          apply List.mem_append_right
          unfold subNames
          rw [hl]
          exact hx
        | depStr m s ht hl =>
          apply List.ne_nil_of_mem (a := s)
          apply List.mem_append_left
          apply List.mem_append_right
          unfold depNames
          rw [if_pos ht, hl]
          exact List.mem_singleton.mpr rfl
        | depArr m vs s ht hl hmem =>
          apply List.ne_nil_of_mem (a := s)
          apply List.mem_append_left
          apply List.mem_append_right
          unfold depNames
          rw [if_pos ht, hl]
          exact List.mem_filterMap.mpr ⟨Value.str s, hmem, rfl⟩
        | field m kv hkv hr =>
          have hks : vsize kv.2 ≤ n := le_trans (vsize_le_of_mem_f m kv hkv) hsz
          have hkvne := (ih kv.2 hks).mpr hr
          obtain ⟨x, hx⟩ := List.exists_mem_of_ne_nil _ hkvne
          apply List.ne_nil_of_mem (a := x)
          apply List.mem_append_right
          rw [collectFields_eq]
          exact List.mem_flatMap.mpr ⟨kv, hkv, hx⟩

theorem collectRefs_ne_nil_iff (v : Value) : collectRefs v ≠ [] ↔ HasRef v :=
  collect_ne_nil_iff_hasRef (vsize v) v le_rfl

theorem lookupF_resIndex_aux :
    ∀ (res : List (CStr × Value)) (acc : List (CStr × List CStr)) (d : CStr),
      (res.map Prod.fst).Nodup →
      lookupF (res.foldl
        (fun acc kv =>
          let rs := (collectRefs kv.2).dedup
          if rs = [] then acc else insertF acc kv.1 rs) acc) d =
        match lookupF res d with
        | some def_ =>
          if (collectRefs def_).dedup = [] then lookupF acc d
          else some ((collectRefs def_).dedup)
        | none => lookupF acc d := by
  intro res
  induction res with
  | nil =>
    intro acc d _
    rfl
  | cons kv rest ih =>
    intro acc d hnd
    rw [List.map_cons, List.nodup_cons] at hnd
    obtain ⟨hknotin, hnd⟩ := hnd
    obtain ⟨k₀, def₀⟩ := kv
    rw [List.foldl_cons, ih _ d hnd]
    have hacc : ∀ q, q ≠ k₀ →
        lookupF (if (collectRefs def₀).dedup = [] then acc
          else insertF acc k₀ ((collectRefs def₀).dedup)) q = lookupF acc q := by
      intro q hq
      by_cases hz : (collectRefs def₀).dedup = []
      · rw [if_pos hz]
      · rw [if_neg hz]
        exact lookupF_insertF_ne acc k₀ q _ hq
    by_cases hd : k₀ = d
    · subst hd
      have hrest : lookupF rest k₀ = none :=
        (lookupF_eq_none_iff rest k₀).mpr hknotin
      have hl : lookupF ((k₀, def₀) :: rest) k₀ = some def₀ := by
        rw [lookupF, if_pos rfl]
      rw [hrest, hl]
      show lookupF (if (collectRefs def₀).dedup = [] then acc
          else insertF acc k₀ ((collectRefs def₀).dedup)) k₀ =
        (if (collectRefs def₀).dedup = [] then lookupF acc k₀
          else some ((collectRefs def₀).dedup))
      by_cases hz : (collectRefs def₀).dedup = []
      · rw [if_pos hz, if_pos hz]
      · rw [if_neg hz, if_neg hz]
        exact lookupF_insertF_self acc k₀ _
    · have hl : lookupF ((k₀, def₀) :: rest) d = lookupF rest d := by
        rw [lookupF, if_neg hd]
      rw [hl]
      cases hrd : lookupF rest d with
      | none =>
        show lookupF (if (collectRefs def₀).dedup = [] then acc
            else insertF acc k₀ ((collectRefs def₀).dedup)) d = lookupF acc d
        exact hacc d (fun hh => hd hh.symm)
      | some def_ =>
        show (if (collectRefs def_).dedup = [] then
            lookupF (if (collectRefs def₀).dedup = [] then acc
              else insertF acc k₀ ((collectRefs def₀).dedup)) d
          else some ((collectRefs def_).dedup)) =
          (if (collectRefs def_).dedup = [] then lookupF acc d
            else some ((collectRefs def_).dedup))
        by_cases hz : (collectRefs def_).dedup = []
        · rw [if_pos hz, if_pos hz]
          exact hacc d (fun hh => hd hh.symm)
        · rw [if_neg hz, if_neg hz]

theorem lookupF_resIndex (res : List (CStr × Value)) (d : CStr)
    (hnd : (res.map Prod.fst).Nodup) :
    lookupF (resIndex res) d =
      match lookupF res d with
      | some def_ =>
        if (collectRefs def_).dedup = [] then none
        else some ((collectRefs def_).dedup)
      | none => none := by
  unfold resIndex
  rw [lookupF_resIndex_aux res [] d hnd]
  cases lookupF res d with
  | none => rfl
  | some def_ =>
    show (if (collectRefs def_).dedup = [] then lookupF ([] : List (CStr × List CStr)) d
        else some ((collectRefs def_).dedup)) =
      (if (collectRefs def_).dedup = [] then none else some ((collectRefs def_).dedup))
    by_cases hz : (collectRefs def_).dedup = []
    · rw [if_pos hz, if_pos hz]
      rfl
    · rw [if_neg hz, if_neg hz]

theorem lookup_outIdx_nil (outs : List (CStr × Value)) (d : CStr) (hd : d ≠ keyOutputs) :
    lookupF (if outIndex outs = [] then ([] : List (CStr × List CStr))
      else insertF ([] : List (CStr × List CStr)) keyOutputs (outIndex outs)) d = none := by
  by_cases hz : outIndex outs = []
  · rw [if_pos hz]
    rfl
  · rw [if_neg hz]
    rw [lookupF_insertF_ne _ keyOutputs d _ hd]
    rfl

theorem lookup_outIdx_res (res : List (CStr × Value)) (outs : List (CStr × Value))
    (d : CStr) (hd : d ≠ keyOutputs) :
    lookupF (if outIndex outs = [] then resIndex res
      else insertF (resIndex res) keyOutputs (outIndex outs)) d
      = lookupF (resIndex res) d := by
  by_cases hz : outIndex outs = []
  · rw [if_pos hz]
  · rw [if_neg hz]
    exact lookupF_insertF_ne _ keyOutputs d _ hd

theorem lookup_index_ne_outputs (t : Value) (d : CStr) (hd : d ≠ keyOutputs) :
    lookupF (find_all_references t) d =
      match lookupV t keyResources with
      | some (.obj res) => lookupF (resIndex res) d
      | _ => none := by
  unfold find_all_references
  cases hr : lookupV t keyResources with
  | some v =>
    cases v with
    | obj res =>
      cases ho : lookupV t keyOutputs with
      | some o =>
        cases o with
        | obj outs => exact lookup_outIdx_res res outs d hd
        | null => rfl
        | boolv b => rfl
        | num i => rfl
        | str s => rfl
        | arr vs => rfl
      | none => rfl
    | null =>
      cases ho : lookupV t keyOutputs with
      | some o =>
        cases o with
        | obj outs => exact lookup_outIdx_nil outs d hd
        | null => rfl
        | boolv b => rfl
        | num i => rfl
        | str s => rfl
        | arr vs => rfl
      | none => rfl
    | boolv b =>
      cases ho : lookupV t keyOutputs with
      | some o =>
        cases o with
        | obj outs => exact lookup_outIdx_nil outs d hd
        | null => rfl
        | boolv b => rfl
        | num i => rfl
        | str s => rfl
        | arr vs => rfl
      | none => rfl
    | num i =>
      cases ho : lookupV t keyOutputs with
      | some o =>
        cases o with
        | obj outs => exact lookup_outIdx_nil outs d hd
        | null => rfl
        | boolv b => rfl
        | num i => rfl
        | str s => rfl
        | arr vs => rfl
      | none => rfl
    | str s =>
      cases ho : lookupV t keyOutputs with
      | some o =>
        cases o with
        | obj outs => exact lookup_outIdx_nil outs d hd
        | null => rfl
        | boolv b => rfl
        | num i => rfl
        | str s => rfl
        | arr vs => rfl
      | none => rfl
    | arr vs =>
      cases ho : lookupV t keyOutputs with
      | some o =>
        cases o with
        | obj outs => exact lookup_outIdx_nil outs d hd
        | null => rfl
        | boolv b => rfl
        | num i => rfl
        | str s => rfl
        | arr vs => rfl
      | none => rfl
  | none =>
    cases ho : lookupV t keyOutputs with
    | some o =>
      cases o with
      | obj outs => exact lookup_outIdx_nil outs d hd
      | null => rfl
      | boolv b => rfl
      | num i => rfl
      | str s => rfl
      | arr vs => rfl
    | none => rfl

/-- Claim C3 (corrected): for a resource `D` (other than the reserved
`Outputs` key) defined in a template's `Resources` object with distinct
resource names, the reference index reports `D` as a key iff `D`'s subtree
contains at least one reported construct — where, unlike the claim's wording,
the pseudo-parameter filter applies only to direct `Ref` values and `Fn::Sub`
placeholders; `Fn::GetAtt` names (array or dotted-string form) and
`DependsOn` entries are reported regardless of the reserved prefix. -/
theorem find_all_references_key_iff_construct
    (top res : List (CStr × Value)) (D : CStr) (def_ : Value)
    (hres : lookupF top keyResources = some (.obj res))
    (hnd : (res.map Prod.fst).Nodup)
    (hD : lookupF res D = some def_)
    (hDo : D ≠ keyOutputs) :
    (lookupF (find_all_references (.obj top)) D ≠ none) ↔ HasRef def_ := by
  rw [lookup_index_ne_outputs (.obj top) D hDo]
  rw [show lookupV (Value.obj top) keyResources = some (Value.obj res) from hres]
  show lookupF (resIndex res) D ≠ none ↔ _
  rw [lookupF_resIndex res D hnd, hD]
  show (if (collectRefs def_).dedup = [] then none
    else some ((collectRefs def_).dedup)) ≠ none ↔ _
  by_cases hz : (collectRefs def_).dedup = []
  · rw [if_pos hz]
    have hcol : collectRefs def_ = [] := (List.dedup_eq_nil _).mp hz
    constructor
    · intro hne
      exact absurd rfl hne
    · intro h
      exact absurd hcol ((collectRefs_ne_nil_iff def_).mpr h)
  · rw [if_neg hz]
    constructor
    · intro _
      refine (collectRefs_ne_nil_iff def_).mp (fun hc => hz ?_)
      rw [hc]
      rfl
    · intro _ hh
      exact Option.noConfusion hh

/-- Witness for C3: a declaration whose subtree holds a single direct
reference is reported, hence satisfies the construct predicate. -/
theorem find_all_references_key_iff_construct_witness :
    HasRef (Value.obj [(keyRef, Value.str "B".data)]) :=
  (find_all_references_key_iff_construct
    [(keyResources, Value.obj [("L".data, Value.obj [(keyRef, Value.str "B".data)])])]
    [("L".data, Value.obj [(keyRef, Value.str "B".data)])]
    "L".data (Value.obj [(keyRef, Value.str "B".data)])
    rfl (by decide) rfl (by decide)).mp (by decide)

/-- Template whose only reference construct is an `Fn::GetAtt` naming a
pseudo-parameter. -/
def exGA : Value :=
  Value.obj [(keyResources, Value.obj
    [("D".data, Value.obj
       [("Foo".data, Value.obj
          [(keyGA, Value.arr [Value.str "AWS::Region".data, Value.str "x".data])])])])]

/-- Counterexample to C3 as stated: `D`'s only construct is an `Fn::GetAtt`
naming a pseudo-parameter, yet `D` is reported as a key and the
pseudo-prefixed name appears in its reported set — contradicting the claim
that pseudo-prefixed names are never reported and that such a declarant has
no non-pseudo construct. -/
theorem getatt_pseudo_reported_cex :
    lookupF (find_all_references exGA) "D".data = some ["AWS::Region".data] ∧
    isPseudo "AWS::Region".data = true :=
  ⟨by decide, by decide⟩

-- quick sanity examples (concrete evaluation)
example : extractSubRefs ([dollarC, lbC] ++ "Bk".data ++ [rbC]) = ["Bk".data] := by decide
example : extractSubRefs ([dollarC, lbC] ++ "AWS::Region".data ++ [rbC]) = [] := by decide
example :
    collectRefs (.obj [(keyType, .str "T".data), (keyDep, .str "Dep".data)]) = ["Dep".data] := by
  decide
example :
    traverse_and_update (.obj [(keyRef, .str "A".data)]) "A".data "B".data
      = .obj [(keyRef, .str "B".data)] := rfl
example :
    subRepl ([dollarC, lbC] ++ "A".data ++ [rbC] ++ [dollarC, lbC] ++ "AB".data ++ [rbC])
      "A".data "Z".data
      = [dollarC, lbC] ++ "Z".data ++ [rbC] ++ [dollarC, lbC] ++ "AB".data ++ [rbC] := by decide

-- ============================================================
-- Interpolation template strings as token lists (claims C7, C8)
-- ============================================================

/-- Token of an interpolation template string: a literal character or a
placeholder with an optional attribute path. -/
inductive STok where
  | lit (c : Char)
  | ph (n : CStr) (attr : Option CStr)
deriving DecidableEq

/-- Concrete text of one token. -/
def flattenTok : STok → CStr
  | .lit c => [c]
  | .ph n none => dollarC :: lbC :: (n ++ [rbC])
  | .ph n (some a) => dollarC :: lbC :: (n ++ dotC :: (a ++ [rbC]))

/-- Concrete text of a token list. -/
def flattenS : List STok → CStr
  | [] => []
  | t :: ts => flattenTok t ++ flattenS ts

/-- Identifier characters carry none of the placeholder delimiters. -/
def plainChar (c : Char) : Bool :=
  decide (c ≠ dollarC) && decide (c ≠ lbC) && decide (c ≠ rbC) &&
    decide (c ≠ dotC) && decide (c ≠ ':')

/-- Plain identifier: non-empty and delimiter-free. -/
def plainName (s : CStr) : Bool := decide (s ≠ []) && s.all plainChar

/-- Attribute-path characters exclude the dollar sign and the closing brace. -/
def okAttrChar (c : Char) : Bool := decide (c ≠ dollarC) && decide (c ≠ rbC)

/-- Well-formed token: a literal is not a dollar sign, a placeholder has a
plain name and a well-formed attribute path. -/
def okTok : STok → Bool
  | .lit c => decide (c ≠ dollarC)
  | .ph n none => plainName n
  | .ph n (some a) => plainName n && a.all okAttrChar

/-- Well-formed token list. -/
def wfToks (ts : List STok) : Bool := ts.all okTok

/-- Renaming of a placeholder token: the composite effect of
`update_sub_value` on one token. -/
def renTok (old new : CStr) : STok → STok
  | .ph n a => if n = old then .ph new a else .ph n a
  | t => t

/-- Renaming restricted to attribute-free placeholders (the first
`str::replace` pass of `update_sub_value`). -/
def renB (old new : CStr) : STok → STok
  | .ph n none => if n = old then .ph new none else .ph n none
  | t => t

/-- Renaming restricted to attributed placeholders (the second
`str::replace` pass of `update_sub_value`). -/
def renD (old new : CStr) : STok → STok
  | .ph n (some a) => if n = old then .ph new (some a) else .ph n (some a)
  | t => t

/-- Fuel irrelevance for the replacement scanner: any fuel at least the
string length yields the same result. -/
theorem replGo_fuel (pat rep : CStr) :
    ∀ (f g : Nat) (s : CStr), s.length ≤ f → s.length ≤ g →
      replGo pat rep f s = replGo pat rep g s := by
  intro f
  induction f with
  | zero =>
    intro g s hf _
    have hs : s = [] := List.length_eq_zero.mp (Nat.le_zero.mp hf)
    subst hs
    cases g <;> rfl
  | succ f ih =>
    intro g s hf hg
    cases s with
    | nil => cases g <;> rfl
    | cons c rest =>
      cases g with
      | zero => simp only [List.length_cons] at hg; omega
      | succ g =>
        show (if pat ≠ [] ∧ pat.isPrefixOf (c :: rest) then
                rep ++ replGo pat rep f ((c :: rest).drop pat.length)
              else c :: replGo pat rep f rest) =
            (if pat ≠ [] ∧ pat.isPrefixOf (c :: rest) then
                rep ++ replGo pat rep g ((c :: rest).drop pat.length)
              else c :: replGo pat rep g rest)
        by_cases h : pat ≠ [] ∧ pat.isPrefixOf (c :: rest)
        · rw [if_pos h, if_pos h]
          have hlp : 1 ≤ pat.length := by
            cases pat with
            | nil => exact absurd rfl h.1
            | cons a b => simp
          have h1 : ((c :: rest).drop pat.length).length ≤ f := by
            rw [List.length_drop]
            simp only [List.length_cons] at hf ⊢
            omega
          have h2 : ((c :: rest).drop pat.length).length ≤ g := by
            rw [List.length_drop]
            simp only [List.length_cons] at hg ⊢
            omega
          rw [ih g _ h1 h2]
        · rw [if_neg h, if_neg h]
          have h1 : rest.length ≤ f := by
            simp only [List.length_cons] at hf; omega
          have h2 : rest.length ≤ g := by
            simp only [List.length_cons] at hg; omega
          rw [ih g rest h1 h2]

/-- Dollar-free prefixes of the scanned string are copied verbatim by the
replacement scanner, whose pattern starts with a dollar sign. -/
theorem replGo_skip (pat rep : CStr) (p0 : CStr) (hp : pat = dollarC :: p0) :
    ∀ (l₁ : CStr) (f : Nat) (l₂ : CStr), (l₁ ++ l₂).length ≤ f →
      l₁.all (fun c => decide (c ≠ dollarC)) = true →
      replGo pat rep f (l₁ ++ l₂) = l₁ ++ replGo pat rep (f - l₁.length) l₂ := by
  intro l₁
  induction l₁ with
  | nil =>
    intro f l₂ _ _
    simp
  | cons c cs ih =>
    intro f l₂ hf hall
    have hcd : c ≠ dollarC := by
      simp only [List.all_cons, Bool.and_eq_true, decide_eq_true_eq] at hall
      exact hall.1
    have hall' : cs.all (fun c => decide (c ≠ dollarC)) = true := by
      simp only [List.all_cons, Bool.and_eq_true] at hall
      exact hall.2
    cases f with
    | zero => simp only [List.length_append, List.length_cons] at hf; omega
    | succ f =>
      show (if pat ≠ [] ∧ pat.isPrefixOf (c :: (cs ++ l₂)) then
              rep ++ replGo pat rep f ((c :: (cs ++ l₂)).drop pat.length)
            else c :: replGo pat rep f (cs ++ l₂)) = _
      have hnp : ¬ (pat ≠ [] ∧ pat.isPrefixOf (c :: (cs ++ l₂))) := by
        intro hcon
        have hpre := hcon.2
        rw [hp] at hpre
        have hsp : (dollarC == c && p0.isPrefixOf (cs ++ l₂)) = true := hpre
        simp only [Bool.and_eq_true] at hsp
        have hd : (dollarC == c) = true := hsp.1
        exact hcd (beq_iff_eq.mp hd).symm
      rw [if_neg hnp]
      have hf' : (cs ++ l₂).length ≤ f := by
        simp only [List.length_append, List.length_cons] at hf ⊢
        omega
      rw [ih f l₂ hf' hall']
      simp only [List.cons_append, List.length_cons]
      have harith : f + 1 - (cs.length + 1) = f - cs.length := by omega
      rw [harith]

/-- Prefix test after removing a shared leading block. -/
theorem isPrefixOf_append_cancel :
    ∀ (p l₁ l₂ : CStr), (p ++ l₁).isPrefixOf (p ++ l₂) = l₁.isPrefixOf l₂ := by
  intro p
  induction p with
  | nil => intro l₁ l₂; rfl
  | cons c cs ih =>
    intro l₁ l₂
    show (c == c && (cs ++ l₁).isPrefixOf (cs ++ l₂)) = l₁.isPrefixOf l₂
    rw [ih l₁ l₂]
    simp

/-- A list is a prefix of itself followed by anything. -/
theorem isPrefixOf_append_self (p r : CStr) : p.isPrefixOf (p ++ r) = true := by
  have h := isPrefixOf_append_cancel p [] r
  rw [List.append_nil] at h
  rw [h]
  cases r <;> rfl

/-- Two distinct plain names, each followed by a delimiter character, never
match as prefixes: the scan fails at or before the first delimiter. -/
theorem isPrefixOf_plain_mismatch :
    ∀ (b nn : CStr), b.all plainChar = true → nn.all plainChar = true → b ≠ nn →
      ∀ (d₁ d₂ : Char), plainChar d₁ = false → plainChar d₂ = false →
      ∀ (t₁ t₂ : CStr),
        (b ++ d₁ :: t₁).isPrefixOf (nn ++ d₂ :: t₂) = false := by
  intro b
  induction b with
  | nil =>
    intro nn hb hn hne d₁ d₂ hd₁ hd₂ t₁ t₂
    cases nn with
    | nil => exact absurd rfl hne
    | cons m ms =>
      show (d₁ == m && (t₁.isPrefixOf (ms ++ d₂ :: t₂))) = false
      have hm : plainChar m = true := by
        simp only [List.all_cons, Bool.and_eq_true] at hn
        exact hn.1
      have hdm : (d₁ == m) = false := by
        apply beq_eq_false_iff_ne.mpr
        intro h
        rw [h, hm] at hd₁
        exact Bool.noConfusion hd₁
      rw [hdm, Bool.false_and]
  | cons x xs ih =>
    intro nn hb hn hne d₁ d₂ hd₁ hd₂ t₁ t₂
    have hx : plainChar x = true ∧ xs.all plainChar = true := by
      simp only [List.all_cons, Bool.and_eq_true] at hb
      exact hb
    cases nn with
    | nil =>
      show (x == d₂ && ((xs ++ d₁ :: t₁).isPrefixOf t₂)) = false
      have hxd : (x == d₂) = false := by
        apply beq_eq_false_iff_ne.mpr
        intro h
        rw [← h, hx.1] at hd₂
        exact Bool.noConfusion hd₂
      rw [hxd, Bool.false_and]
    | cons m ms =>
      have hm : plainChar m = true ∧ ms.all plainChar = true := by
        simp only [List.all_cons, Bool.and_eq_true] at hn
        exact hn
      show (x == m && ((xs ++ d₁ :: t₁).isPrefixOf (ms ++ d₂ :: t₂))) = false
      by_cases hxm : x = m
      · subst hxm
        have hne' : xs ≠ ms := by
          intro h
          apply hne
          rw [h]
        rw [ih ms hx.2 hm.2 hne' d₁ d₂ hd₁ hd₂ t₁ t₂]
        simp
      · rw [beq_eq_false_iff_ne.mpr hxm, Bool.false_and]

/-- Plain characters are never the dollar sign. -/
theorem plain_no_dollar (s : CStr) (h : s.all plainChar = true) :
    s.all (fun c => decide (c ≠ dollarC)) = true := by
  simp only [List.all_eq_true] at h ⊢
  intro c hc
  have hp := h c hc
  simp only [plainChar, Bool.and_eq_true, decide_eq_true_eq] at hp
  simp only [decide_eq_true_eq]
  exact hp.1.1.1.1

/-- Attribute characters are never the dollar sign. -/
theorem attr_no_dollar (s : CStr) (h : s.all okAttrChar = true) :
    s.all (fun c => decide (c ≠ dollarC)) = true := by
  simp only [List.all_eq_true] at h ⊢
  intro c hc
  have hp := h c hc
  simp only [okAttrChar, Bool.and_eq_true, decide_eq_true_eq] at hp
  simp only [decide_eq_true_eq]
  exact hp.1

/-- Scanner step at a position where the pattern matches: the replacement is
emitted and the scan resumes after the matched span. -/
theorem replGo_hit (pat rep : CStr) (p0 : CStr) (hp : pat = dollarC :: p0)
    (f : Nat) (l₂ : CStr) :
    replGo pat rep (f + 1) (pat ++ l₂) = rep ++ replGo pat rep f l₂ := by
  subst hp
  show (if (dollarC :: p0) ≠ [] ∧ (dollarC :: p0).isPrefixOf ((dollarC :: p0) ++ l₂) then
          rep ++ replGo (dollarC :: p0) rep f
            (((dollarC :: p0) ++ l₂).drop (dollarC :: p0).length)
        else dollarC :: replGo (dollarC :: p0) rep f (p0 ++ l₂)) =
      rep ++ replGo (dollarC :: p0) rep f l₂
  rw [if_pos ⟨List.cons_ne_nil _ _, isPrefixOf_append_self _ _⟩]
  rw [List.drop_left]

/-- Scanner step at a position where the pattern fails: the head character is
copied and the scan resumes one character later. -/
theorem replGo_miss (pat rep : CStr) (f : Nat) (c : Char) (l : CStr)
    (h : pat.isPrefixOf (c :: l) = false) :
    replGo pat rep (f + 1) (c :: l) = c :: replGo pat rep f l := by
  show (if pat ≠ [] ∧ pat.isPrefixOf (c :: l) then
          rep ++ replGo pat rep f ((c :: l).drop pat.length)
        else c :: replGo pat rep f l) = c :: replGo pat rep f l
  rw [if_neg]
  intro hcon
  exact Bool.noConfusion (h ▸ hcon.2)

/-- Single-token step of the first replacement pass (`${old}` to `${new}`):
an attribute-free placeholder named `old` is renamed, every other well-formed
token is copied verbatim. -/
theorem replB_step (old new : CStr) (ho : plainName old = true)
    (tok : STok) (hok : okTok tok = true) (rest : CStr) (f : Nat)
    (hf : (flattenTok tok ++ rest).length ≤ f) :
    replGo (patB old) (patB new) f (flattenTok tok ++ rest) =
      flattenTok (renB old new tok) ++ replaceAll rest (patB old) (patB new) := by
  have hoall : old.all plainChar = true := by
    simp only [plainName, Bool.and_eq_true] at ho
    exact ho.2
  cases tok with
  | lit c =>
    have hc : c ≠ dollarC := by
      simp only [okTok, decide_eq_true_eq] at hok
      exact hok
    have hall : ([c]).all (fun x => decide (x ≠ dollarC)) = true := by
      simp [hc]
    have hstep := replGo_skip (patB old) (patB new) (lbC :: (old ++ [rbC])) rfl
      [c] f rest hf hall
    show replGo (patB old) (patB new) f ([c] ++ rest) =
      [c] ++ replaceAll rest (patB old) (patB new)
    rw [hstep]
    congr 1
    show replGo (patB old) (patB new) (f - ([c] : CStr).length) rest =
      replGo (patB old) (patB new) rest.length rest
    apply replGo_fuel
    · simp only [flattenTok, List.length_append, List.length_cons,
        List.length_nil] at hf ⊢
      omega
    · exact Nat.le_refl _
  | ph n attr =>
    cases attr with
    | none =>
      have hn : plainName n = true := by
        simpa [okTok] using hok
      have hnall : n.all plainChar = true := by
        simp only [plainName, Bool.and_eq_true] at hn
        exact hn.2
      by_cases hno : n = old
      · subst hno
        cases f with
        | zero =>
          exfalso
          simp only [flattenTok, List.length_append, List.length_cons] at hf
          omega
        | succ f =>
          have hren : renB n new (STok.ph n none) = STok.ph new none := by
            simp [renB]
          rw [hren]
          show replGo (patB n) (patB new) (f + 1) (patB n ++ rest) =
            flattenTok (STok.ph new none) ++ replaceAll rest (patB n) (patB new)
          rw [replGo_hit (patB n) (patB new) (lbC :: (n ++ [rbC])) rfl f rest]
          have hpb : flattenTok (STok.ph new none) = patB new := rfl
          rw [hpb]
          congr 1
          show replGo (patB n) (patB new) f rest =
            replGo (patB n) (patB new) rest.length rest
          apply replGo_fuel
          · simp only [flattenTok, List.length_append, List.length_cons] at hf
            omega
          · exact Nat.le_refl _
      · have hpre : (patB old).isPrefixOf (flattenTok (STok.ph n none) ++ rest) = false := by
          show (dollarC == dollarC && (lbC == lbC &&
            (old ++ [rbC]).isPrefixOf ((n ++ [rbC]) ++ rest))) = false
          have hassoc : (n ++ [rbC]) ++ rest = n ++ (rbC :: rest) := by
            rw [List.append_assoc]
            rfl
          have hmm : (old ++ [rbC]).isPrefixOf ((n ++ [rbC]) ++ rest) = false := by
            rw [hassoc]
            exact isPrefixOf_plain_mismatch old n hoall hnall
              (fun h => hno h.symm) rbC rbC (by decide) (by decide) [] rest
          rw [hmm]
          simp
        cases f with
        | zero =>
          exfalso
          simp only [flattenTok, List.length_append, List.length_cons] at hf
          omega
        | succ f =>
          have hren : renB old new (STok.ph n none) = STok.ph n none := by
            simp [renB, hno]
          rw [hren]
          show replGo (patB old) (patB new) (f + 1)
              (dollarC :: ((lbC :: (n ++ [rbC])) ++ rest)) =
            dollarC :: ((lbC :: (n ++ [rbC])) ++ replaceAll rest (patB old) (patB new))
          rw [replGo_miss (patB old) (patB new) f dollarC
            ((lbC :: (n ++ [rbC])) ++ rest) hpre]
          congr 1
          have hall : (lbC :: (n ++ [rbC])).all (fun c => decide (c ≠ dollarC)) = true := by
            have hnd := plain_no_dollar n hnall
            simp only [List.all_eq_true] at hnd ⊢
            intro c hc
            simp only [List.mem_cons, List.mem_append, List.mem_singleton,
              List.not_mem_nil, or_false] at hc
            rcases hc with h | h | h
            · subst h; decide
            · exact hnd c h
            · subst h; decide
          have hflen : ((lbC :: (n ++ [rbC])) ++ rest).length ≤ f := by
            simp only [flattenTok, List.length_append, List.length_cons,
              List.length_nil] at hf ⊢
            omega
          rw [replGo_skip (patB old) (patB new) (lbC :: (old ++ [rbC])) rfl
            (lbC :: (n ++ [rbC])) f rest hflen hall]
          congr 1
          show replGo (patB old) (patB new) (f - (lbC :: (n ++ [rbC])).length) rest =
            replGo (patB old) (patB new) rest.length rest
          apply replGo_fuel
          · simp only [flattenTok, List.length_append, List.length_cons,
              List.length_nil] at hf ⊢
            omega
          · exact Nat.le_refl _
    | some a =>
      have hok2 : plainName n = true ∧ a.all okAttrChar = true := by
        simpa [okTok, Bool.and_eq_true] using hok
      have hnall : n.all plainChar = true := by
        have := hok2.1
        simp only [plainName, Bool.and_eq_true] at this
        exact this.2
      have hpre : (patB old).isPrefixOf
          (flattenTok (STok.ph n (some a)) ++ rest) = false := by
        show (dollarC == dollarC && (lbC == lbC &&
          (old ++ [rbC]).isPrefixOf ((n ++ dotC :: (a ++ [rbC])) ++ rest))) = false
        have hassoc : (n ++ dotC :: (a ++ [rbC])) ++ rest =
            n ++ (dotC :: ((a ++ [rbC]) ++ rest)) := by
          rw [List.append_assoc]
          rfl
        have hmm : (old ++ [rbC]).isPrefixOf ((n ++ dotC :: (a ++ [rbC])) ++ rest)
            = false := by
          rw [hassoc]
          by_cases hno : n = old
          · subst hno
            have hcan := isPrefixOf_append_cancel n [rbC] (dotC :: ((a ++ [rbC]) ++ rest))
            rw [hcan]
            show (rbC == dotC && _) = false
            have hrd : (rbC == dotC) = false := by decide
            rw [hrd, Bool.false_and]
          · exact isPrefixOf_plain_mismatch old n hoall hnall
              (fun h => hno h.symm) rbC dotC (by decide) (by decide) []
              ((a ++ [rbC]) ++ rest)
        rw [hmm]
        simp
      cases f with
      | zero =>
        exfalso
        simp only [flattenTok, List.length_append, List.length_cons] at hf
        omega
      | succ f =>
        show replGo (patB old) (patB new) (f + 1)
            (dollarC :: ((lbC :: (n ++ dotC :: (a ++ [rbC]))) ++ rest)) =
          dollarC :: ((lbC :: (n ++ dotC :: (a ++ [rbC]))) ++
            replaceAll rest (patB old) (patB new))
        rw [replGo_miss (patB old) (patB new) f dollarC
          ((lbC :: (n ++ dotC :: (a ++ [rbC]))) ++ rest) hpre]
        congr 1
        have hall : (lbC :: (n ++ dotC :: (a ++ [rbC]))).all
            (fun c => decide (c ≠ dollarC)) = true := by
          have hnd := plain_no_dollar n hnall
          have had := attr_no_dollar a hok2.2
          simp only [List.all_eq_true] at hnd had ⊢
          intro c hc
          simp only [List.mem_cons, List.mem_append, List.mem_singleton,
            List.not_mem_nil, or_false] at hc
          rcases hc with h | h | h | h | h
          · subst h; decide
          · exact hnd c h
          · subst h; decide
          · exact had c h
          · subst h; decide
        have hflen : ((lbC :: (n ++ dotC :: (a ++ [rbC]))) ++ rest).length ≤ f := by
          simp only [flattenTok, List.length_append, List.length_cons,
            List.length_nil] at hf ⊢
          omega
        rw [replGo_skip (patB old) (patB new) (lbC :: (old ++ [rbC])) rfl
          (lbC :: (n ++ dotC :: (a ++ [rbC]))) f rest hflen hall]
        congr 1
        show replGo (patB old) (patB new)
            (f - (lbC :: (n ++ dotC :: (a ++ [rbC]))).length) rest =
          replGo (patB old) (patB new) rest.length rest
        apply replGo_fuel
        · simp only [flattenTok, List.length_append, List.length_cons,
            List.length_nil] at hf ⊢
          omega
        · exact Nat.le_refl _

/-- Single-token step of the second replacement pass (`${old.` to `${new.`):
an attributed placeholder named `old` is renamed, every other well-formed
token is copied verbatim. -/
theorem replD_step (old new : CStr) (ho : plainName old = true)
    (tok : STok) (hok : okTok tok = true) (rest : CStr) (f : Nat)
    (hf : (flattenTok tok ++ rest).length ≤ f) :
    replGo (patD old) (patD new) f (flattenTok tok ++ rest) =
      flattenTok (renD old new tok) ++ replaceAll rest (patD old) (patD new) := by
  have hoall : old.all plainChar = true := by
    simp only [plainName, Bool.and_eq_true] at ho
    exact ho.2
  cases tok with
  | lit c =>
    have hc : c ≠ dollarC := by
      simp only [okTok, decide_eq_true_eq] at hok
      exact hok
    have hall : ([c]).all (fun x => decide (x ≠ dollarC)) = true := by
      simp [hc]
    have hstep := replGo_skip (patD old) (patD new) (lbC :: (old ++ [dotC])) rfl
      [c] f rest hf hall
    show replGo (patD old) (patD new) f ([c] ++ rest) =
      [c] ++ replaceAll rest (patD old) (patD new)
    rw [hstep]
    congr 1
    show replGo (patD old) (patD new) (f - ([c] : CStr).length) rest =
      replGo (patD old) (patD new) rest.length rest
    apply replGo_fuel
    · simp only [flattenTok, List.length_append, List.length_cons,
        List.length_nil] at hf ⊢
      omega
    · exact Nat.le_refl _
  | ph n attr =>
    cases attr with
    | none =>
      have hn : plainName n = true := by
        simpa [okTok] using hok
      have hnall : n.all plainChar = true := by
        simp only [plainName, Bool.and_eq_true] at hn
        exact hn.2
      have hpre : (patD old).isPrefixOf (flattenTok (STok.ph n none) ++ rest) = false := by
        show (dollarC == dollarC && (lbC == lbC &&
          (old ++ [dotC]).isPrefixOf ((n ++ [rbC]) ++ rest))) = false
        have hassoc : (n ++ [rbC]) ++ rest = n ++ (rbC :: rest) := by
          rw [List.append_assoc]
          rfl
        have hmm : (old ++ [dotC]).isPrefixOf ((n ++ [rbC]) ++ rest) = false := by
          rw [hassoc]
          by_cases hno : n = old
          · subst hno
            have hcan := isPrefixOf_append_cancel n [dotC] (rbC :: rest)
            rw [hcan]
            show (dotC == rbC && _) = false
            have hdr : (dotC == rbC) = false := by decide
            rw [hdr, Bool.false_and]
          · exact isPrefixOf_plain_mismatch old n hoall hnall
              (fun h => hno h.symm) dotC rbC (by decide) (by decide) [] rest
        rw [hmm]
        simp
      cases f with
      | zero =>
        exfalso
        simp only [flattenTok, List.length_append, List.length_cons] at hf
        omega
      | succ f =>
        show replGo (patD old) (patD new) (f + 1)
            (dollarC :: ((lbC :: (n ++ [rbC])) ++ rest)) =
          dollarC :: ((lbC :: (n ++ [rbC])) ++ replaceAll rest (patD old) (patD new))
        rw [replGo_miss (patD old) (patD new) f dollarC
          ((lbC :: (n ++ [rbC])) ++ rest) hpre]
        congr 1
        have hall : (lbC :: (n ++ [rbC])).all (fun c => decide (c ≠ dollarC)) = true := by
          have hnd := plain_no_dollar n hnall
          simp only [List.all_eq_true] at hnd ⊢
          intro c hc
          simp only [List.mem_cons, List.mem_append, List.mem_singleton,
            List.not_mem_nil, or_false] at hc
          rcases hc with h | h | h
          · subst h; decide
          · exact hnd c h
          · subst h; decide
        have hflen : ((lbC :: (n ++ [rbC])) ++ rest).length ≤ f := by
          simp only [flattenTok, List.length_append, List.length_cons,
            List.length_nil] at hf ⊢
          omega
        rw [replGo_skip (patD old) (patD new) (lbC :: (old ++ [dotC])) rfl
          (lbC :: (n ++ [rbC])) f rest hflen hall]
        congr 1
        show replGo (patD old) (patD new) (f - (lbC :: (n ++ [rbC])).length) rest =
          replGo (patD old) (patD new) rest.length rest
        apply replGo_fuel
        · simp only [flattenTok, List.length_append, List.length_cons,
            List.length_nil] at hf ⊢
          omega
        · exact Nat.le_refl _
    | some a =>
      have hok2 : plainName n = true ∧ a.all okAttrChar = true := by
        simpa [okTok, Bool.and_eq_true] using hok
      have hnall : n.all plainChar = true := by
        have hp := hok2.1
        simp only [plainName, Bool.and_eq_true] at hp
        exact hp.2
      by_cases hno : n = old
      · subst hno
        have hsplit : flattenTok (STok.ph n (some a)) ++ rest =
            patD n ++ ((a ++ [rbC]) ++ rest) := by
          simp [flattenTok, patD, List.cons_append, List.append_assoc,
            List.singleton_append]
        have hren : renD n new (STok.ph n (some a)) = STok.ph new (some a) := by
          simp [renD]
        have hfl : flattenTok (STok.ph new (some a)) = patD new ++ (a ++ [rbC]) := by
          simp [flattenTok, patD, List.cons_append, List.append_assoc,
            List.singleton_append]
        cases f with
        | zero =>
          exfalso
          simp only [flattenTok, List.length_append, List.length_cons] at hf
          omega
        | succ f =>
          rw [hsplit, hren, hfl,
            replGo_hit (patD n) (patD new) (lbC :: (n ++ [dotC])) rfl f
              ((a ++ [rbC]) ++ rest)]
          have hall : (a ++ [rbC]).all (fun c => decide (c ≠ dollarC)) = true := by
            have had := attr_no_dollar a hok2.2
            simp only [List.all_eq_true] at had ⊢
            intro c hc
            simp only [List.mem_append, List.mem_singleton,
              List.not_mem_nil, or_false, List.mem_cons] at hc
            rcases hc with h | h
            · exact had c h
            · subst h; decide
          have hflen : ((a ++ [rbC]) ++ rest).length ≤ f := by
            rw [hsplit] at hf
            simp only [patD, List.length_append, List.length_cons,
              List.length_nil] at hf ⊢
            omega
          rw [replGo_skip (patD n) (patD new) (lbC :: (n ++ [dotC])) rfl
            (a ++ [rbC]) f rest hflen hall]
          rw [List.append_assoc (patD new) (a ++ [rbC])
            (replaceAll rest (patD n) (patD new))]
          congr 1
          congr 1
          show replGo (patD n) (patD new) (f - ((a : CStr) ++ [rbC]).length) rest =
            replGo (patD n) (patD new) rest.length rest
          apply replGo_fuel
          · rw [hsplit] at hf
            simp only [patD, List.length_append, List.length_cons,
              List.length_nil] at hf ⊢
            omega
          · exact Nat.le_refl _
      · have hpre : (patD old).isPrefixOf
            (flattenTok (STok.ph n (some a)) ++ rest) = false := by
          show (dollarC == dollarC && (lbC == lbC &&
            (old ++ [dotC]).isPrefixOf ((n ++ dotC :: (a ++ [rbC])) ++ rest))) = false
          have hassoc : (n ++ dotC :: (a ++ [rbC])) ++ rest =
              n ++ (dotC :: ((a ++ [rbC]) ++ rest)) := by
            rw [List.append_assoc]
            rfl
          have hmm : (old ++ [dotC]).isPrefixOf
              ((n ++ dotC :: (a ++ [rbC])) ++ rest) = false := by
            rw [hassoc]
            exact isPrefixOf_plain_mismatch old n hoall hnall
              (fun h => hno h.symm) dotC dotC (by decide) (by decide) []
              ((a ++ [rbC]) ++ rest)
          rw [hmm]
          simp
        cases f with
        | zero =>
          exfalso
          simp only [flattenTok, List.length_append, List.length_cons] at hf
          omega
        | succ f =>
          have hren : renD old new (STok.ph n (some a)) = STok.ph n (some a) := by
            simp [renD, hno]
          rw [hren]
          show replGo (patD old) (patD new) (f + 1)
              (dollarC :: ((lbC :: (n ++ dotC :: (a ++ [rbC]))) ++ rest)) =
            dollarC :: ((lbC :: (n ++ dotC :: (a ++ [rbC]))) ++
              replaceAll rest (patD old) (patD new))
          rw [replGo_miss (patD old) (patD new) f dollarC
            ((lbC :: (n ++ dotC :: (a ++ [rbC]))) ++ rest) hpre]
          congr 1
          have hall : (lbC :: (n ++ dotC :: (a ++ [rbC]))).all
              (fun c => decide (c ≠ dollarC)) = true := by
            have hnd := plain_no_dollar n hnall
            have had := attr_no_dollar a hok2.2
            simp only [List.all_eq_true] at hnd had ⊢
            intro c hc
            simp only [List.mem_cons, List.mem_append, List.mem_singleton,
              List.not_mem_nil, or_false] at hc
            rcases hc with h | h | h | h | h
            · subst h; decide
            · exact hnd c h
            · subst h; decide
            · exact had c h
            · subst h; decide
          have hflen : ((lbC :: (n ++ dotC :: (a ++ [rbC]))) ++ rest).length ≤ f := by
            simp only [flattenTok, List.length_append, List.length_cons,
              List.length_nil] at hf ⊢
            omega
          rw [replGo_skip (patD old) (patD new) (lbC :: (old ++ [dotC])) rfl
            (lbC :: (n ++ dotC :: (a ++ [rbC]))) f rest hflen hall]
          congr 1
          show replGo (patD old) (patD new)
              (f - (lbC :: (n ++ dotC :: (a ++ [rbC]))).length) rest =
            replGo (patD old) (patD new) rest.length rest
          apply replGo_fuel
          · simp only [flattenTok, List.length_append, List.length_cons,
              List.length_nil] at hf ⊢
            omega
          · exact Nat.le_refl _

/-- First replacement pass over a well-formed token string: exactly the
attribute-free placeholders named `old` are renamed. -/
theorem replaceAll_patB (old new : CStr) (ho : plainName old = true) :
    ∀ (ts : List STok), wfToks ts = true →
      replaceAll (flattenS ts) (patB old) (patB new) =
        flattenS (ts.map (renB old new)) := by
  intro ts
  induction ts with
  | nil => intro _; rfl
  | cons tok ts ih =>
    intro hwf
    have hw : okTok tok = true ∧ wfToks ts = true := by
      simpa [wfToks, List.all_cons, Bool.and_eq_true] using hwf
    show replGo (patB old) (patB new) (flattenTok tok ++ flattenS ts).length
        (flattenTok tok ++ flattenS ts) =
      flattenTok (renB old new tok) ++ flattenS (ts.map (renB old new))
    rw [replB_step old new ho tok hw.1 (flattenS ts) _ (Nat.le_refl _)]
    rw [ih hw.2]

/-- Second replacement pass over a well-formed token string: exactly the
attributed placeholders named `old` are renamed. -/
theorem replaceAll_patD (old new : CStr) (ho : plainName old = true) :
    ∀ (ts : List STok), wfToks ts = true →
      replaceAll (flattenS ts) (patD old) (patD new) =
        flattenS (ts.map (renD old new)) := by
  intro ts
  induction ts with
  | nil => intro _; rfl
  | cons tok ts ih =>
    intro hwf
    have hw : okTok tok = true ∧ wfToks ts = true := by
      simpa [wfToks, List.all_cons, Bool.and_eq_true] using hwf
    show replGo (patD old) (patD new) (flattenTok tok ++ flattenS ts).length
        (flattenTok tok ++ flattenS ts) =
      flattenTok (renD old new tok) ++ flattenS (ts.map (renD old new))
    rw [replD_step old new ho tok hw.1 (flattenS ts) _ (Nat.le_refl _)]
    rw [ih hw.2]

/-- The first pass preserves token well-formedness when the new name is
plain. -/
theorem wfToks_map_renB (old new : CStr) (hn : plainName new = true)
    (ts : List STok) (h : wfToks ts = true) :
    wfToks (ts.map (renB old new)) = true := by
  simp only [wfToks, List.all_map, List.all_eq_true, Function.comp] at h ⊢
  intro tok htok
  have hok := h tok htok
  cases tok with
  | lit c => simpa [renB] using hok
  | ph n attr =>
    cases attr with
    | none =>
      by_cases hno : n = old
      · simp [renB, hno, okTok, hn]
      · simpa [renB, hno] using hok
    | some a => simpa [renB] using hok

/-- The two passes of `update_sub_value` compose to the placeholder
renaming. -/
theorem renD_comp_renB (old new : CStr) (tok : STok) :
    renD old new (renB old new tok) = renTok old new tok := by
  cases tok with
  | lit c => rfl
  | ph n attr =>
    cases attr with
    | none =>
      by_cases hno : n = old
      · simp [renB, renD, renTok, hno]
      · simp [renB, renD, renTok, hno]
    | some a =>
      by_cases hno : n = old
      · simp [renB, renD, renTok, hno]
      · simp [renB, renD, renTok, hno]

/-- Claim C8 (confirmed): on a well-formed interpolation template string with
plain identifiers `old ≠ new`, the two `str::replace` passes of
`update_sub_value` replace exactly the placeholder occurrences `${old}` and
`${old.` by `${new}` / `${new.`: placeholders named `old` are renamed with
attribute paths kept, and every other token — literal characters and
placeholders with any other name, including names having `old` as a proper
prefix — is left unchanged. -/
theorem update_sub_replaces_exact_placeholders
    (old new : CStr) (ho : plainName old = true) (hn : plainName new = true)
    (_hne : old ≠ new) (ts : List STok) (hwf : wfToks ts = true) :
    subRepl (flattenS ts) old new = flattenS (ts.map (renTok old new)) := by
  show replaceAll (replaceAll (flattenS ts) (patB old) (patB new))
      (patD old) (patD new) = _
  rw [replaceAll_patB old new ho ts hwf]
  rw [replaceAll_patD old new ho (ts.map (renB old new))
    (wfToks_map_renB old new hn ts hwf)]
  rw [List.map_map]
  congr 1
  apply List.map_congr_left
  intro tok _
  exact renD_comp_renB old new tok

/-- Concrete token string for the C8 witness: a plain placeholder of the old
name, a placeholder whose name has the old name as a proper prefix, attributed
placeholders of both, and literal text. -/
def exToks : List STok :=
  [.ph "AB".data none, .lit ' ', .ph "ABX".data none,
   .ph "AB".data (some "Arn".data), .ph "ABX".data (some "Arn".data), .lit 'x']

theorem update_sub_replaces_exact_placeholders_witness :
    plainName "AB".data = true ∧ "AB".data ≠ "CD".data ∧
    subRepl (flattenS exToks) "AB".data "CD".data =
      flattenS (exToks.map (renTok "AB".data "CD".data)) :=
  ⟨by decide, by decide,
    update_sub_replaces_exact_placeholders "AB".data "CD".data (by decide)
      (by decide) (by decide) exToks (by decide)⟩

-- ============================================================
-- Claim C7: single-reference rewrite and re-index
-- ============================================================

/-- Lookup miss in a one-entry association list. -/
theorem lookupF_one {α : Type} (k q : CStr) (v : α) (h : k ≠ q) :
    lookupF [(k, v)] q = none := by
  show (if k = q then some v else none) = none
  rw [if_neg h]

/-- Lookup hit in a one-entry association list. -/
theorem lookupF_one_self {α : Type} (k : CStr) (v : α) :
    lookupF [(k, v)] k = some v := by
  show (if k = k then some v else none) = some v
  rw [if_pos rfl]

/-- Lookup miss in a two-entry association list. -/
theorem lookupF_pair {α : Type} (k₁ k₂ q : CStr) (v₁ v₂ : α)
    (h₁ : k₁ ≠ q) (h₂ : k₂ ≠ q) :
    lookupF [(k₁, v₁), (k₂, v₂)] q = none := by
  show (if k₁ = q then some v₁ else if k₂ = q then some v₂ else none) = none
  rw [if_neg h₁, if_neg h₂]

/-- Lookup hit on the second entry of a two-entry association list. -/
theorem lookupF_pair_snd {α : Type} (k₁ k₂ : CStr) (v₁ v₂ : α) (h₁ : k₁ ≠ k₂) :
    lookupF [(k₁, v₁), (k₂, v₂)] k₂ = some v₂ := by
  show (if k₁ = k₂ then some v₁ else if k₂ = k₂ then some v₂ else none) = some v₂
  rw [if_neg h₁, if_pos rfl]

/-- A scan over characters satisfying the predicate stops exactly at the
first failing character. -/
theorem takeWhile_plain_break (p : Char → Bool) :
    ∀ (b : CStr), (∀ c ∈ b, p c = true) → ∀ (d : Char), p d = false →
      ∀ (t : CStr), (b ++ d :: t).takeWhile p = b := by
  intro b
  induction b with
  | nil =>
    intro _ d hd t
    show (d :: t).takeWhile p = []
    simp [List.takeWhile_cons, hd]
  | cons x xs ih =>
    intro hall d hd t
    have hx : p x = true := hall x (List.mem_cons_self x xs)
    have hxs : ∀ c ∈ xs, p c = true := fun c hc => hall c (List.mem_cons_of_mem x hc)
    show ((x :: (xs ++ d :: t)).takeWhile p) = x :: xs
    simp only [List.takeWhile_cons, hx]
    simp [ih hxs d hd t]

/-- Extraction from a template string that is a single plain non-pseudo
placeholder: exactly that name is collected. -/
theorem extractSubRefs_single (b : CStr) (hbn : plainName b = true)
    (hps : isPseudo b = false) :
    extractSubRefs (dollarC :: lbC :: (b ++ [rbC])) = [b] := by
  have hbe : b ≠ [] := by
    simp only [plainName, Bool.and_eq_true, decide_eq_true_eq] at hbn
    exact hbn.1
  have hball : b.all plainChar = true := by
    simp only [plainName, Bool.and_eq_true] at hbn
    exact hbn.2
  have hn : (b ++ [rbC]).takeWhile (fun ch => ¬ (ch = rbC ∨ ch = dotC)) = b := by
    apply takeWhile_plain_break
    · intro ch hc
      have hp : plainChar ch = true := (List.all_eq_true.mp hball) ch hc
      simp only [plainChar, Bool.and_eq_true, decide_eq_true_eq] at hp
      simp only [decide_eq_true_eq]
      rintro (h | h)
      · exact hp.1.1.2 h
      · exact hp.1.2 h
    · decide
  have hdrop : (b ++ [rbC]).drop b.length = [rbC] := List.drop_left b [rbC]
  have hthrough : dropThroughRb ([rbC] : CStr) = [] := by
    simp [dropThroughRb]
  show (if (b ++ [rbC]).takeWhile (fun ch => ¬ (ch = rbC ∨ ch = dotC)) ≠ [] ∧
        ¬ isPseudo ((b ++ [rbC]).takeWhile (fun ch => ¬ (ch = rbC ∨ ch = dotC))) then
          [(b ++ [rbC]).takeWhile (fun ch => ¬ (ch = rbC ∨ ch = dotC))] else []) ++
      extractGo ((b ++ [rbC]).length + 1)
        (dropThroughRb ((b ++ [rbC]).drop
          ((b ++ [rbC]).takeWhile (fun ch => ¬ (ch = rbC ∨ ch = dotC))).length)) = [b]
  rw [hn, hdrop, hthrough]
  rw [if_pos ⟨hbe, by simp [hps]⟩]
  show [b] ++ extractGo ((b ++ [rbC]).length + 1) [] = [b]
  have hgo : extractGo ((b ++ [rbC]).length + 1) [] = [] := rfl
  rw [hgo, List.append_nil]

/-- Lookup hit on the first entry of a two-entry association list. -/
theorem lookupF_pair_fst {α : Type} (k₁ k₂ : CStr) (v₁ v₂ : α) :
    lookupF [(k₁, v₁), (k₂, v₂)] k₁ = some v₁ := by
  show (if k₁ = k₁ then some v₁ else if k₂ = k₁ then some v₂ else none) = some v₁
  rw [if_pos rfl]

/-- Collection contributes no `Ref` name without a `Ref` key. -/
theorem refNames_none (m : List (CStr × Value)) (h : lookupF m keyRef = none) :
    refNames m = [] := by
  unfold refNames
  rw [h]

/-- Collection contributes no `Fn::GetAtt` name without that key. -/
theorem gaNames_none (m : List (CStr × Value)) (h : lookupF m keyGA = none) :
    gaNames m = [] := by
  unfold gaNames
  rw [h]

/-- Collection contributes no `Fn::Sub` name without that key. -/
theorem subNames_none (m : List (CStr × Value)) (h : lookupF m keySub = none) :
    subNames m = [] := by
  unfold subNames
  rw [h]

/-- Collection contributes no `DependsOn` name without that key. -/
theorem depNames_noDep (m : List (CStr × Value)) (h : lookupF m keyDep = none) :
    depNames m = [] := by
  unfold depNames
  rw [h]
  by_cases ht : (lookupF m keyType).isSome = true
  · rw [if_pos ht]
  · rw [if_neg ht]

/-- Shape of the single reference construct used for claim C7: a direct
`Ref`, an array-form `Fn::GetAtt`, a string-form `Fn::Sub` with one
placeholder, or a string-form `DependsOn` on the resource itself. -/
inductive RefForm where
  | refF
  | gaF (attr : CStr)
  | subSF
  | depF
deriving DecidableEq

/-- Resource body holding exactly one reference construct naming `x`. -/
def formBody (fm : RefForm) (x ty pk : CStr) : Value :=
  match fm with
  | .refF => .obj [(keyType, .str ty), (pk, .obj [(keyRef, .str x)])]
  | .gaF attr =>
    .obj [(keyType, .str ty), (pk, .obj [(keyGA, .arr [.str x, .str attr])])]
  | .subSF =>
    .obj [(keyType, .str ty),
          (pk, .obj [(keySub, .str (dollarC :: lbC :: (x ++ [rbC])))])]
  | .depF => .obj [(keyType, .str ty), (keyDep, .str x)]

/-- Template with a single declarant `A` whose body holds one reference. -/
def singleRefTemplate (fm : RefForm) (A x ty pk : CStr) : Value :=
  .obj [(keyResources, .obj [(A, formBody fm x ty pk)])]

/-- Name usable as a resource or property key without colliding with the
construct keys the collector and rewriter react to. -/
abbrev okName (x : CStr) : Prop :=
  x ≠ keyRef ∧ x ≠ keyGA ∧ x ≠ keySub ∧ x ≠ keyDep ∧ x ≠ keyType

/-- Reference set collected from a single-construct resource body: exactly
the named target. -/
theorem collect_formBody (fm : RefForm) (x ty pk : CStr) (hpk : okName pk)
    (hxn : plainName x = true) (hxp : isPseudo x = false) :
    collectRefs (formBody fm x ty pk) = [x] := by
  obtain ⟨hpk1, hpk2, hpk3, hpk4, _⟩ := hpk
  cases fm with
  | refF =>
    have hin : collectRefs (.obj [(keyRef, Value.str x)]) = [x] := by
      have h1 : refNames [(keyRef, Value.str x)] = [x] := by
        unfold refNames
        rw [lookupF_one_self]
        simp [hxp]
      have h2 : gaNames [(keyRef, Value.str x)] = [] :=
        gaNames_none _ (lookupF_one _ _ _ (by decide))
      have h3 : subNames [(keyRef, Value.str x)] = [] :=
        subNames_none _ (lookupF_one _ _ _ (by decide))
      have h4 : depNames [(keyRef, Value.str x)] = [] :=
        depNames_noDep _ (lookupF_one _ _ _ (by decide))
      show refNames [(keyRef, Value.str x)] ++ gaNames [(keyRef, Value.str x)] ++
        subNames [(keyRef, Value.str x)] ++ depNames [(keyRef, Value.str x)] ++
        collectFields [(keyRef, Value.str x)] = [x]
      rw [h1, h2, h3, h4]
      rfl
    have hr : refNames [(keyType, Value.str ty),
        (pk, Value.obj [(keyRef, Value.str x)])] = [] :=
      refNames_none _ (lookupF_pair _ _ _ _ _ (by decide) hpk1)
    have hg : gaNames [(keyType, Value.str ty),
        (pk, Value.obj [(keyRef, Value.str x)])] = [] :=
      gaNames_none _ (lookupF_pair _ _ _ _ _ (by decide) hpk2)
    have hs : subNames [(keyType, Value.str ty),
        (pk, Value.obj [(keyRef, Value.str x)])] = [] :=
      subNames_none _ (lookupF_pair _ _ _ _ _ (by decide) hpk3)
    have hd : depNames [(keyType, Value.str ty),
        (pk, Value.obj [(keyRef, Value.str x)])] = [] :=
      depNames_noDep _ (lookupF_pair _ _ _ _ _ (by decide) hpk4)
    show refNames _ ++ gaNames _ ++ subNames _ ++ depNames _ ++
      (collectRefs (Value.str ty) ++ (collectRefs (.obj [(keyRef, Value.str x)]) ++ [])) = [x]
    rw [hr, hg, hs, hd, hin]
    rfl
  | gaF attr =>
    have hin : collectRefs (.obj [(keyGA, Value.arr [Value.str x, Value.str attr])]) = [x] := by
      have h1 : gaNames [(keyGA, Value.arr [Value.str x, Value.str attr])] = [x] := by
        unfold gaNames
        rw [lookupF_one_self]
      have h2 : refNames [(keyGA, Value.arr [Value.str x, Value.str attr])] = [] :=
        refNames_none _ (lookupF_one _ _ _ (by decide))
      have h3 : subNames [(keyGA, Value.arr [Value.str x, Value.str attr])] = [] :=
        subNames_none _ (lookupF_one _ _ _ (by decide))
      have h4 : depNames [(keyGA, Value.arr [Value.str x, Value.str attr])] = [] :=
        depNames_noDep _ (lookupF_one _ _ _ (by decide))
      show refNames _ ++ gaNames _ ++ subNames _ ++ depNames _ ++
        collectFields [(keyGA, Value.arr [Value.str x, Value.str attr])] = [x]
      rw [h1, h2, h3, h4]
      rfl
    have hr : refNames [(keyType, Value.str ty),
        (pk, Value.obj [(keyGA, Value.arr [Value.str x, Value.str attr])])] = [] :=
      refNames_none _ (lookupF_pair _ _ _ _ _ (by decide) hpk1)
    have hg : gaNames [(keyType, Value.str ty),
        (pk, Value.obj [(keyGA, Value.arr [Value.str x, Value.str attr])])] = [] :=
      gaNames_none _ (lookupF_pair _ _ _ _ _ (by decide) hpk2)
    have hs : subNames [(keyType, Value.str ty),
        (pk, Value.obj [(keyGA, Value.arr [Value.str x, Value.str attr])])] = [] :=
      subNames_none _ (lookupF_pair _ _ _ _ _ (by decide) hpk3)
    have hd : depNames [(keyType, Value.str ty),
        (pk, Value.obj [(keyGA, Value.arr [Value.str x, Value.str attr])])] = [] :=
      depNames_noDep _ (lookupF_pair _ _ _ _ _ (by decide) hpk4)
    show refNames _ ++ gaNames _ ++ subNames _ ++ depNames _ ++
      (collectRefs (Value.str ty) ++
        (collectRefs (.obj [(keyGA, Value.arr [Value.str x, Value.str attr])]) ++ [])) = [x]
    rw [hr, hg, hs, hd, hin]
    rfl
  | subSF =>
    have hin : collectRefs (.obj [(keySub,
        Value.str (dollarC :: lbC :: (x ++ [rbC])))]) = [x] := by
      have h1 : subNames [(keySub, Value.str (dollarC :: lbC :: (x ++ [rbC])))] = [x] := by
        unfold subNames
        rw [lookupF_one_self]
        show extractSubRefs (dollarC :: lbC :: (x ++ [rbC])) = [x]
        exact extractSubRefs_single x hxn hxp
      have h2 : refNames [(keySub, Value.str (dollarC :: lbC :: (x ++ [rbC])))] = [] :=
        refNames_none _ (lookupF_one _ _ _ (by decide))
      have h3 : gaNames [(keySub, Value.str (dollarC :: lbC :: (x ++ [rbC])))] = [] :=
        gaNames_none _ (lookupF_one _ _ _ (by decide))
      have h4 : depNames [(keySub, Value.str (dollarC :: lbC :: (x ++ [rbC])))] = [] :=
        depNames_noDep _ (lookupF_one _ _ _ (by decide))
      show refNames _ ++ gaNames _ ++ subNames _ ++ depNames _ ++
        collectFields [(keySub, Value.str (dollarC :: lbC :: (x ++ [rbC])))] = [x]
      rw [h1, h2, h3, h4]
      rfl
    have hr : refNames [(keyType, Value.str ty),
        (pk, Value.obj [(keySub, Value.str (dollarC :: lbC :: (x ++ [rbC])))])] = [] :=
      refNames_none _ (lookupF_pair _ _ _ _ _ (by decide) hpk1)
    have hg : gaNames [(keyType, Value.str ty),
        (pk, Value.obj [(keySub, Value.str (dollarC :: lbC :: (x ++ [rbC])))])] = [] :=
      gaNames_none _ (lookupF_pair _ _ _ _ _ (by decide) hpk2)
    have hs : subNames [(keyType, Value.str ty),
        (pk, Value.obj [(keySub, Value.str (dollarC :: lbC :: (x ++ [rbC])))])] = [] :=
      subNames_none _ (lookupF_pair _ _ _ _ _ (by decide) hpk3)
    have hd : depNames [(keyType, Value.str ty),
        (pk, Value.obj [(keySub, Value.str (dollarC :: lbC :: (x ++ [rbC])))])] = [] :=
      depNames_noDep _ (lookupF_pair _ _ _ _ _ (by decide) hpk4)
    show refNames _ ++ gaNames _ ++ subNames _ ++ depNames _ ++
      (collectRefs (Value.str ty) ++
        (collectRefs (.obj [(keySub, Value.str (dollarC :: lbC :: (x ++ [rbC])))]) ++ [])) = [x]
    rw [hr, hg, hs, hd, hin]
    rfl
  | depF =>
    have hr : refNames [(keyType, Value.str ty), (keyDep, Value.str x)] = [] :=
      refNames_none _ (lookupF_pair _ _ _ _ _ (by decide) (by decide))
    have hg : gaNames [(keyType, Value.str ty), (keyDep, Value.str x)] = [] :=
      gaNames_none _ (lookupF_pair _ _ _ _ _ (by decide) (by decide))
    have hs : subNames [(keyType, Value.str ty), (keyDep, Value.str x)] = [] :=
      subNames_none _ (lookupF_pair _ _ _ _ _ (by decide) (by decide))
    have hd : depNames [(keyType, Value.str ty), (keyDep, Value.str x)] = [x] := by
      unfold depNames
      rw [lookupF_pair_fst, lookupF_pair_snd _ _ _ _ (by decide)]
      simp
    show refNames _ ++ gaNames _ ++ subNames _ ++ depNames _ ++
      (collectRefs (Value.str ty) ++ (collectRefs (Value.str x) ++ [])) = [x]
    rw [hr, hg, hs, hd]
    rfl

/-- Reference index of a single-reference template: exactly one entry, the
declarant with its one target. -/
theorem index_singleRefTemplate (fm : RefForm) (A x ty pk : CStr)
    (hpk : okName pk) (hxn : plainName x = true) (hxp : isPseudo x = false) :
    find_all_references (singleRefTemplate fm A x ty pk) = [(A, [x])] := by
  have h1 : find_all_references (singleRefTemplate fm A x ty pk) =
      resIndex [(A, formBody fm x ty pk)] := rfl
  have h2 : resIndex [(A, formBody fm x ty pk)] =
      (if ((collectRefs (formBody fm x ty pk)).dedup) = [] then []
       else insertF [] A ((collectRefs (formBody fm x ty pk)).dedup)) := rfl
  rw [h1, h2, collect_formBody fm x ty pk hpk hxn hxp]
  have hd : ([x] : List CStr).dedup = [x] := by simp
  rw [hd, if_neg (by simp)]
  rfl

/-- Rewriting step on a one-entry object whose key avoids the construct
keys: plain recursion into the value. -/
theorem travF_obj_one_key (f : Nat) (A : CStr) (v : Value) (old new : CStr)
    (hA : okName A) :
    travF (f + 1) (.obj [(A, v)]) old new = .obj [(A, travF f v old new)] := by
  obtain ⟨h1, h2, h3, h4, _⟩ := hA
  rw [travF_obj_normal f [(A, v)] old new
    (refMatchB_of_none _ _ (lookupF_one _ _ _ h1))
    (gaTail_of_none _ _ (lookupF_one _ _ _ h2))]
  have hsub : subStep f [(A, v)] old new = [(A, v)] := by
    unfold subStep
    rw [lookupF_one _ _ _ h3]
  have hdep : depStep [(A, v)] old new = [(A, v)] := by
    unfold depStep
    rw [lookupF_one _ _ _ h4]
  rw [hsub, hdep]
  rfl

/-- Rewriting step on a resource body with a `Type` field and one property
key avoiding the construct keys: plain recursion into the property value. -/
theorem travF_obj_typed (f : Nat) (ty pk : CStr) (v : Value) (old new : CStr)
    (hpk : okName pk) :
    travF (f + 1) (.obj [(keyType, .str ty), (pk, v)]) old new =
      .obj [(keyType, .str ty), (pk, travF f v old new)] := by
  obtain ⟨h1, h2, h3, h4, _⟩ := hpk
  rw [travF_obj_normal f [(keyType, Value.str ty), (pk, v)] old new
    (refMatchB_of_none _ _ (lookupF_pair _ _ _ _ _ (by decide) h1))
    (gaTail_of_none _ _ (lookupF_pair _ _ _ _ _ (by decide) h2))]
  have hsub : subStep f [(keyType, Value.str ty), (pk, v)] old new =
      [(keyType, Value.str ty), (pk, v)] := by
    unfold subStep
    rw [lookupF_pair _ _ _ _ _ (by decide) h3]
  have hdep : depStep [(keyType, Value.str ty), (pk, v)] old new =
      [(keyType, Value.str ty), (pk, v)] := by
    unfold depStep
    rw [lookupF_pair _ _ _ _ _ (by decide) h4]
  rw [hsub, hdep]
  show Value.obj [(keyType, travF f (Value.str ty) old new),
    (pk, travF f v old new)] = _
  rw [travF_str]

/-- Rewriting a single-reference template with the mapping old to new renames
exactly the one reference. -/
theorem rewrite_singleRefTemplate (fm : RefForm) (A b c ty pk : CStr)
    (hA : okName A) (hpk : okName pk)
    (hbn : plainName b = true) (hcn : plainName c = true)
    (hbp : isPseudo b = false) :
    update_template_references (singleRefTemplate fm A b ty pk) [(b, c)] =
      singleRefTemplate fm A c ty pk := by
  cases fm with
  | refF =>
    have e1 : update_template_references (singleRefTemplate .refF A b ty pk) [(b, c)] =
        Value.obj [(keyResources,
          travF (((2 + 1) + 1) + 1) (.obj [(A, formBody .refF b ty pk)]) b c)] := rfl
    rw [e1, travF_obj_one_key ((2 + 1) + 1) A _ b c hA]
    have hfb : formBody .refF b ty pk =
        .obj [(keyType, .str ty), (pk, .obj [(keyRef, .str b)])] := rfl
    rw [hfb, travF_obj_typed (2 + 1) ty pk _ b c hpk]
    have hrm : refMatchB [(keyRef, Value.str b)] b = true := by
      unfold refMatchB
      rw [lookupF_one_self]
      simp [hbp]
    rw [travF_obj_ref 2 [(keyRef, Value.str b)] b c hrm]
    rfl
  | gaF attr =>
    have e1 : update_template_references (singleRefTemplate (.gaF attr) A b ty pk) [(b, c)] =
        Value.obj [(keyResources,
          travF ((((4 + 1) + 1) + 1)) (.obj [(A, formBody (.gaF attr) b ty pk)]) b c)] := rfl
    rw [e1, travF_obj_one_key ((4 + 1) + 1) A _ b c hA]
    have hfb : formBody (.gaF attr) b ty pk =
        .obj [(keyType, .str ty), (pk, .obj [(keyGA, .arr [.str b, .str attr])])] := rfl
    rw [hfb, travF_obj_typed (4 + 1) ty pk _ b c hpk]
    have hga : gaTail [(keyGA, Value.arr [Value.str b, Value.str attr])] b =
        some [Value.str attr] := by
      unfold gaTail
      rw [lookupF_one_self]
      show (if b = b then some [Value.str attr] else none) = some [Value.str attr]
      rw [if_pos rfl]
    rw [travF_obj_ga 4 [(keyGA, Value.arr [Value.str b, Value.str attr])]
      [Value.str attr] b c
      (refMatchB_of_none _ _ (lookupF_one _ _ _ (by decide))) hga]
    rfl
  | subSF =>
    have e1 : update_template_references (singleRefTemplate .subSF A b ty pk) [(b, c)] =
        Value.obj [(keyResources,
          travF (((2 + 1) + 1) + 1) (.obj [(A, formBody .subSF b ty pk)]) b c)] := rfl
    rw [e1, travF_obj_one_key ((2 + 1) + 1) A _ b c hA]
    have hfb : formBody .subSF b ty pk =
        .obj [(keyType, .str ty),
              (pk, .obj [(keySub, .str (dollarC :: lbC :: (b ++ [rbC])))])] := rfl
    rw [hfb, travF_obj_typed (2 + 1) ty pk _ b c hpk]
    have hinner : travF (2 + 1)
        (.obj [(keySub, Value.str (dollarC :: lbC :: (b ++ [rbC])))]) b c =
        .obj [(keySub, Value.str (subRepl (dollarC :: lbC :: (b ++ [rbC])) b c))] := rfl
    rw [hinner]
    have hsubrepl : subRepl (dollarC :: lbC :: (b ++ [rbC])) b c =
        dollarC :: lbC :: (c ++ [rbC]) := by
      have hfs : (dollarC :: lbC :: (b ++ [rbC])) = flattenS [STok.ph b none] := by
        simp [flattenS, flattenTok]
      rw [hfs]
      show replaceAll (replaceAll (flattenS [STok.ph b none]) (patB b) (patB c))
          (patD b) (patD c) = dollarC :: lbC :: (c ++ [rbC])
      rw [replaceAll_patB b c hbn [STok.ph b none] (by simp [wfToks, okTok, hbn])]
      have hm1 : ([STok.ph b none].map (renB b c)) = [STok.ph c none] := by
        simp [renB]
      rw [hm1]
      rw [replaceAll_patD b c hbn [STok.ph c none] (by simp [wfToks, okTok, hcn])]
      have hm2 : ([STok.ph c none].map (renD b c)) = [STok.ph c none] := by
        simp [renD]
      rw [hm2]
      simp [flattenS, flattenTok]
    rw [hsubrepl]
    rfl
  | depF =>
    have e1 : update_template_references (singleRefTemplate .depF A b ty pk) [(b, c)] =
        Value.obj [(keyResources,
          travF ((2 + 1) + 1) (.obj [(A, formBody .depF b ty pk)]) b c)] := rfl
    rw [e1, travF_obj_one_key (2 + 1) A _ b c hA]
    have hfb : formBody .depF b ty pk =
        .obj [(keyType, .str ty), (keyDep, .str b)] := rfl
    rw [hfb]
    rw [travF_obj_normal 2 [(keyType, Value.str ty), (keyDep, Value.str b)] b c
      (refMatchB_of_none _ _ (lookupF_pair _ _ _ _ _ (by decide) (by decide)))
      (gaTail_of_none _ _ (lookupF_pair _ _ _ _ _ (by decide) (by decide)))]
    have hss : subStep 2 [(keyType, Value.str ty), (keyDep, Value.str b)] b c =
        [(keyType, Value.str ty), (keyDep, Value.str b)] := by
      unfold subStep
      rw [lookupF_pair _ _ _ _ _ (by decide) (by decide)]
    rw [hss]
    have hdu : depUpd (Value.str b) b c = Value.str c := by
      show (if b = b then Value.str c else Value.str b) = Value.str c
      rw [if_pos rfl]
    have hds : depStep [(keyType, Value.str ty), (keyDep, Value.str b)] b c =
        [(keyType, Value.str ty), (keyDep, Value.str c)] := by
      unfold depStep
      rw [lookupF_pair_snd _ _ _ _ (by decide)]
      show insertF [(keyType, Value.str ty), (keyDep, Value.str b)] keyDep
        (depUpd (Value.str b) b c) = [(keyType, Value.str ty), (keyDep, Value.str c)]
      rw [hdu]
      rfl
    rw [hds]
    show Value.obj [(keyResources, Value.obj [(A, Value.obj
      [(keyType, travF 2 (Value.str ty) b c), (keyDep, travF 2 (Value.str c) b c)])])] = _
    rw [travF_str, travF_str]
    rfl

/-- Claim C7 (corrected): the rewrite-then-reindex round trip is proved for
templates in the canonical single-reference form `singleRefTemplate`: a
`Resources` section with one declarant `A` whose body is a `Type` field plus
exactly one reference construct of the four shapes the rewriter recognizes —
a direct `Ref` under a non-construct property key, an array-form
`Fn::GetAtt`, a single-placeholder string `Fn::Sub`, or a resource-level
string `DependsOn` — naming a plain non-pseudo `b`. For these, with mapping
b→c: the original index is exactly `A` referencing `b`; rewriting with
`update_template_references` and re-running `find_all_references` yields `A`
referencing `c`, and no declarant references `b`. The restriction to this
family is essential: outside it the property fails even when the index pair
A→b arises from recognized shapes, on two counts shown in the accompanying
counterexample — the dotted-string `Fn::GetAtt`, which the index reports but
the rewriter never touches, and a matching array-form `Fn::GetAtt` sitting
beside a `DependsOn` in the same object, where the early return skips the
sibling. -/
theorem rewrite_then_reindex_single_reference
    (fm : RefForm) (A b c ty pk : CStr)
    (hA : okName A) (hpk : okName pk)
    (hbn : plainName b = true) (hcn : plainName c = true) (hbc : b ≠ c)
    (hbp : isPseudo b = false) (hcp : isPseudo c = false) :
    find_all_references (singleRefTemplate fm A b ty pk) = [(A, [b])] ∧
    lookupF (find_all_references
      (update_template_references (singleRefTemplate fm A b ty pk) [(b, c)])) A =
        some [c] ∧
    ∀ d rs, (d, rs) ∈ find_all_references
      (update_template_references (singleRefTemplate fm A b ty pk) [(b, c)]) →
        b ∉ rs := by
  have hrw := rewrite_singleRefTemplate fm A b c ty pk hA hpk hbn hcn hbp
  have hidxb := index_singleRefTemplate fm A b ty pk hpk hbn hbp
  have hidxc := index_singleRefTemplate fm A c ty pk hpk hcn hcp
  refine ⟨hidxb, ?_, ?_⟩
  · rw [hrw, hidxc]
    exact lookupF_one_self A [c]
  · intro d rs hmem
    rw [hrw, hidxc] at hmem
    have h2 : (d, rs) = (A, [c]) := List.mem_singleton.mp hmem
    have hrs : rs = [c] := congrArg Prod.snd h2
    rw [hrs]
    intro hbin
    exact hbc (List.mem_singleton.mp hbin)

theorem rewrite_then_reindex_single_reference_witness :
    okName "A".data ∧ plainName "B".data = true ∧ ("B".data ≠ "C".data) ∧
    (find_all_references (singleRefTemplate .refF "A".data "B".data "T".data "P".data)
      = [("A".data, ["B".data])] ∧
     lookupF (find_all_references (update_template_references
       (singleRefTemplate .refF "A".data "B".data "T".data "P".data)
       [("B".data, "C".data)])) "A".data = some ["C".data] ∧
     ∀ d rs, (d, rs) ∈ find_all_references (update_template_references
       (singleRefTemplate .refF "A".data "B".data "T".data "P".data)
       [("B".data, "C".data)]) → "B".data ∉ rs) :=
  ⟨by decide, by decide, by decide,
    rewrite_then_reindex_single_reference .refF "A".data "B".data "C".data
      "T".data "P".data (by decide) (by decide) (by decide) (by decide)
      (by decide) (by decide) (by decide)⟩

/-- Template whose single reference is a dotted-string `Fn::GetAtt`. -/
def exDotGA : Value :=
  .obj [(keyResources, .obj [("A".data,
    .obj [(keyType, .str "T".data),
          ("P".data, .obj [(keyGA, .str "B.Arn".data)])])])]

/-- Template whose only index pair is A→B, produced by two recognized
constructs in one object: an array-form `Fn::GetAtt` and a `DependsOn`,
both naming B. -/
def exShadow : Value :=
  .obj [(keyResources, .obj [("A".data,
    .obj [(keyType, .str "T".data),
          (keyGA, .arr [.str "B".data, .str "Arn".data]),
          (keyDep, .str "B".data)])])]

/-- Counterexample to C7 as stated, in both of its failure modes. First, a
tree whose single reference A→B is a dotted-string `Fn::GetAtt`:
`collect_references` reports it but `traverse_and_update` never rewrites it,
so after applying B→C the template is unchanged and the re-built index still
shows A referencing B. Second, a tree indexing as the single pair A→B via
recognized shapes (array-form `Fn::GetAtt` beside a `DependsOn`): the
`Fn::GetAtt` early return skips the sibling `DependsOn`, so after applying
B→C the re-built index shows A referencing both C and B — in both trees B
stays referenced, refuting the round-trip property outside the canonical
single-construct family. -/
theorem rewrite_reindex_single_reference_cex :
    (find_all_references exDotGA = [("A".data, ["B".data])] ∧
     update_template_references exDotGA [("B".data, "C".data)] = exDotGA ∧
     find_all_references (update_template_references exDotGA
       [("B".data, "C".data)]) = [("A".data, ["B".data])]) ∧
    (find_all_references exShadow = [("A".data, ["B".data])] ∧
     find_all_references (update_template_references exShadow
       [("B".data, "C".data)]) = [("A".data, ["C".data, "B".data])]) :=
  ⟨⟨by decide, rfl, by decide⟩, by decide, by decide⟩
